import Mathlib

/-!
Verification of the uvhelper configuration-tree engine (src/uvconfig.py,
src/uvstub.py) against its specification.

The development shallowly embeds the engine:

* `XElem` models `xml.etree.ElementTree.Element`: a tag, an optional text
  (Python `Element.text` is `str | None`) and a list of children.  The only
  attribute-carrying element in the program is the document root whose fixed
  attributes are never read back, so attributes are not modelled.
* `UVConfigBase.load_keys` / `load_options` become the pure functions
  `pruneIdx` / `pruneScanGo`, `loadOpts` and `loadNode` below.  `pruneIdx` is a
  direct transcription of the CPython `for elem in self: ... self.remove(elem)`
  loop, including the list-iterator index semantics (removing the element at
  the current position makes the iterator skip the element that slides into
  that position).  `pruneScanGo` is a structurally recursive equivalent,
  proved equal in `pruneIdx_eq_go`.
* Each catalog class (`UVTargetStatus`, ..., `UVProject`) becomes one Lean
  definition mirroring its `__init__`.
-/

/-- Model of `xml.etree.ElementTree.Element`: tag, text, children. -/
inductive XElem : Type where
  | mk (tag : String) (text : Option String) (children : List XElem)
deriving Repr

def XElem.tag : XElem → String
  | .mk t _ _ => t

def XElem.text : XElem → Option String
  | .mk _ x _ => x

def XElem.children : XElem → List XElem
  | .mk _ _ c => c

/-- `self.find("./tag")`: the first child with the given tag. -/
def findTag (l : List XElem) (t : String) : Option XElem :=
  l.find? (fun e => e.tag == t)

/-- `elem if elem is not None else tag`: `UVConfigBase.__init__` falls back to
a freshly created empty element named `tag` when no element is supplied. -/
def elemOr (o : Option XElem) (t : String) : XElem :=
  o.getD (XElem.mk t none [])

/-- `dict.update` on key dictionaries (`dict[str, None]`): keys already
present keep their position, new keys are appended in order. -/
def updateKeys (a b : List String) : List String :=
  a ++ b.filter (fun k => ¬ k ∈ a)

/-- Direct embedding of the pruning loop of `UVConfigBase.load_keys`:

    for elem in self:
        if not elem.tag in self.valid_keys:
            warn(...); self.remove(elem)
        else:
            subs.add(elem.tag)

CPython's list iterator keeps a cursor `i`; `__next__` yields `l[i]` and
advances to `i+1`.  `self.remove(elem)` deletes the element at the current
position (children are pairwise distinct objects, and `Element.remove`
compares by identity), so after a removal the iterator's next step examines
the element that was originally two positions further on: the element
immediately after a removed one is silently skipped.  The result is the final
child list, the number of `warn` calls issued by this loop, and the set
`subs` of tags of the examined valid children. -/
def pruneIdx (valid : List String) (l : List XElem) (i : Nat) :
    List XElem × Nat × List String :=
  if h : i < l.length then
    let e := l.get ⟨i, h⟩
    if e.tag ∈ valid then
      let r := pruneIdx valid l (i + 1)
      (r.1, r.2.1, e.tag :: r.2.2)
    else
      let r := pruneIdx valid (l.eraseIdx i) (i + 1)
      (r.1, r.2.1 + 1, r.2.2)
  else (l, 0, [])
termination_by l.length - i
decreasing_by
  · omega
  · have : (l.eraseIdx i).length = l.length - 1 := by
      rw [List.length_eraseIdx]; simp [h]
    omega

/-- Structurally recursive form of `pruneIdx _ _ 0` (see `pruneIdx_eq_go`):
a removed element causes its immediate successor to be kept unexamined. -/
def pruneScanGo (valid : List String) : List XElem → List XElem × Nat × List String
  | [] => ([], 0, [])
  | x :: rest =>
    if x.tag ∈ valid then
      (x :: (pruneScanGo valid rest).1, (pruneScanGo valid rest).2.1,
        x.tag :: (pruneScanGo valid rest).2.2)
    else
      match rest with
      | [] => ([], 1, [])
      | y :: rest2 =>
        (y :: (pruneScanGo valid rest2).1, (pruneScanGo valid rest2).2.1 + 1,
          (pruneScanGo valid rest2).2.2)

theorem pruneIdx_lt (valid : List String) (l : List XElem) (i : Nat)
    (h : i < l.length) :
    pruneIdx valid l i =
      if l[i].tag ∈ valid then
        ((pruneIdx valid l (i + 1)).1, (pruneIdx valid l (i + 1)).2.1,
          l[i].tag :: (pruneIdx valid l (i + 1)).2.2)
      else
        ((pruneIdx valid (l.eraseIdx i) (i + 1)).1,
          (pruneIdx valid (l.eraseIdx i) (i + 1)).2.1 + 1,
          (pruneIdx valid (l.eraseIdx i) (i + 1)).2.2) := by
  rw [pruneIdx]
  simp [h]

theorem pruneIdx_ge (valid : List String) (l : List XElem) (i : Nat)
    (h : ¬ i < l.length) : pruneIdx valid l i = (l, 0, []) := by
  rw [pruneIdx]
  simp [h]

theorem go_cons_valid (valid : List String) (x : XElem) (rest : List XElem)
    (hv : x.tag ∈ valid) :
    pruneScanGo valid (x :: rest) =
      (x :: (pruneScanGo valid rest).1, (pruneScanGo valid rest).2.1,
        x.tag :: (pruneScanGo valid rest).2.2) := by
  rw [pruneScanGo.eq_def]
  simp [hv]

theorem go_single_invalid (valid : List String) (x : XElem)
    (hv : ¬ x.tag ∈ valid) : pruneScanGo valid [x] = ([], 1, []) := by
  rw [pruneScanGo.eq_def]
  simp [hv]

theorem go_cons_invalid (valid : List String) (x y : XElem) (rest2 : List XElem)
    (hv : ¬ x.tag ∈ valid) :
    pruneScanGo valid (x :: y :: rest2) =
      (y :: (pruneScanGo valid rest2).1, (pruneScanGo valid rest2).2.1 + 1,
        (pruneScanGo valid rest2).2.2) := by
  rw [pruneScanGo.eq_def]
  simp [hv]

theorem pruneIdx_eq_go (valid : List String) (l : List XElem) (i : Nat) :
    pruneIdx valid l i =
      ((l.take i) ++ (pruneScanGo valid (l.drop i)).1,
        (pruneScanGo valid (l.drop i)).2.1,
        (pruneScanGo valid (l.drop i)).2.2) := by
  suffices H : ∀ n (l : List XElem) (i : Nat), l.length - i = n →
      pruneIdx valid l i =
        ((l.take i) ++ (pruneScanGo valid (l.drop i)).1,
          (pruneScanGo valid (l.drop i)).2.1,
          (pruneScanGo valid (l.drop i)).2.2) from H _ l i rfl
  intro n
  induction n using Nat.strong_induction_on with
  | _ n ih =>
    intro l i hm
    by_cases h : i < l.length
    · have hdrop : l.drop i = l[i] :: l.drop (i + 1) := List.drop_eq_getElem_cons h
      have htake : l.take (i + 1) = l.take i ++ [l[i]] := by
        rw [List.take_succ]
        simp [List.getElem?_eq_getElem h]
      by_cases hv : l[i].tag ∈ valid
      · rw [pruneIdx_lt valid l i h, if_pos hv,
          ih (l.length - (i + 1)) (by omega) l (i + 1) rfl, hdrop,
          go_cons_valid valid _ _ hv, htake, List.append_assoc,
          List.singleton_append]
      · have herase : l.eraseIdx i = l.take i ++ l.drop (i + 1) :=
          List.eraseIdx_eq_take_drop_succ l i
        have hlen : (l.eraseIdx i).length = l.length - 1 := by
          rw [List.length_eraseIdx]
          simp [h]
        have hlentake : (l.take i).length = i := by
          simp [List.length_take]
          omega
        rw [pruneIdx_lt valid l i h, if_neg hv]
        cases hrest : l.drop (i + 1) with
        | nil =>
          have herase2 : l.eraseIdx i = l.take i := by
            rw [herase, hrest, List.append_nil]
          have hge : ¬ i + 1 < (l.eraseIdx i).length := by
            rw [herase2, hlentake]
            omega
          rw [pruneIdx_ge valid _ _ hge, herase2, hdrop, hrest,
            go_single_invalid valid _ hv]
          simp
        | cons y rest2 =>
          have htk : (l.eraseIdx i).take (i + 1) = l.take i ++ [y] := by
            rw [herase, hrest, List.take_append_eq_append_take, hlentake]
            simp
          have hdk : (l.eraseIdx i).drop (i + 1) = rest2 := by
            rw [herase, hrest, List.drop_append_eq_append_drop, hlentake]
            simp
          rw [ih ((l.eraseIdx i).length - (i + 1)) (by omega) (l.eraseIdx i)
              (i + 1) rfl, htk, hdk, hdrop, hrest,
            go_cons_invalid valid _ _ _ hv]
          simp
    · have h1 : l.drop i = [] := by
        apply List.drop_eq_nil_of_le
        omega
      have h2 : l.take i = l := by
        apply List.take_of_length_le
        omega
      rw [pruneIdx_ge valid l i h, h1, h2]
      simp [pruneScanGo]

/-- `UVConfigBase.load_options`: for each option key, the first child with
that tag provides the value (`elem.text` if it is a string, else `""`);
if there is no such child a warning is emitted and the schema default (or
`""` when the key has no default) is used.  Returns the option list in
schema-declaration order together with the number of warnings. -/
def loadOpts (oks : List String) (defaults : List (String × String))
    (ch : List XElem) : List (String × String) × Nat :=
  match oks with
  | [] => ([], 0)
  | k :: rest =>
    let r := loadOpts rest defaults ch
    match findTag ch k with
    | some e => ((k, e.text.getD "") :: r.1, r.2)
    | none => ((k, (defaults.lookup k).getD "") :: r.1, r.2 + 1)

structure LoadResult where
  children : List XElem
  options : List (String × String)
  pruneWarns : Nat
  synthWarns : Nat
  missWarns : Nat
deriving Repr

/-- `UVConfigBase.load` = `load_keys` followed by `load_options`, acting on a
node whose schema declares option keys `oksDecl`, valid keys `vksDecl` and
defaults `defaults`, and whose element currently has children `children`.

`load_keys` first merges the default-option keys into `option_keys` and those
into `valid_keys` (dict `update`), then prunes invalid children (see
`pruneScanGo`), then appends one default-valued leaf for every default key not
among the examined tags (`set(self.default_opts) - subs`; the iteration order
of that Python set is implementation defined, the model uses schema
declaration order — no claim depends on the relative order of the synthesized
leaves).  The `isidentifier` assertion on schema keys concerns only the static
schema tables, all of whose keys are identifiers; it is not modelled. -/
def loadNode (oksDecl vksDecl : List String) (defaults : List (String × String))
    (children : List XElem) : LoadResult :=
  let oks := updateKeys oksDecl (defaults.map Prod.fst)
  let vks := updateKeys vksDecl oks
  let pr := pruneScanGo vks children
  let synth := defaults.filter (fun p => ¬ p.1 ∈ pr.2.2)
  let ch := pr.1 ++ synth.map (fun p => XElem.mk p.1 (some p.2) [])
  let lo := loadOpts oks defaults ch
  ⟨ch, lo.1, pr.2.1, synth.length, lo.2⟩

theorem go_allValid (valid : List String) (l : List XElem)
    (h : ∀ x ∈ l, x.tag ∈ valid) :
    pruneScanGo valid l = (l, 0, l.map XElem.tag) := by
  induction l with
  | nil => simp [pruneScanGo]
  | cons x rest ihr =>
    have hx : x.tag ∈ valid := h x (by simp)
    rw [go_cons_valid valid x rest hx, ihr (fun y hy => h y (by simp [hy]))]
    simp

theorem go_members (valid : List String) (l : List XElem) :
    ∀ e ∈ (pruneScanGo valid l).1, e ∈ l := by
  induction l using pruneScanGo.induct valid with
  | case1 => simp [pruneScanGo]
  | case2 x rest hv ihr =>
    rw [go_cons_valid valid x rest hv]
    intro e he
    rcases List.mem_cons.mp he with he | he
    · simp [he]
    · exact List.mem_cons_of_mem _ (ihr e he)
  | case3 x hv =>
    rw [go_single_invalid valid x hv]
    simp
  | case4 x hv y rest2 ihr =>
    rw [go_cons_invalid valid x y rest2 hv]
    intro e he
    rcases List.mem_cons.mp he with he | he
    · simp [he]
    · simp [ihr e he]

theorem go_subs_sub (valid : List String) (l : List XElem) :
    ∀ t ∈ (pruneScanGo valid l).2.2, t ∈ l.map XElem.tag := by
  induction l using pruneScanGo.induct valid with
  | case1 => simp [pruneScanGo]
  | case2 x rest hv ihr =>
    rw [go_cons_valid valid x rest hv]
    intro t ht
    rcases List.mem_cons.mp ht with ht | ht
    · simp [ht]
    · simp only [List.map_cons, List.mem_cons]
      exact Or.inr (by simpa using ihr t ht)
  | case3 x hv =>
    rw [go_single_invalid valid x hv]
    simp
  | case4 x hv y rest2 ihr =>
    rw [go_cons_invalid valid x y rest2 hv]
    intro t ht
    have := ihr t ht
    simp only [List.map_cons, List.mem_cons]
    right; right
    simpa using this

theorem loadOpts_keys (oks : List String) (defaults : List (String × String))
    (ch : List XElem) : (loadOpts oks defaults ch).1.map Prod.fst = oks := by
  induction oks with
  | nil => simp [loadOpts]
  | cons k rest ihr =>
    rw [loadOpts.eq_def]
    cases h : findTag ch k <;> simp [h, ihr]

theorem loadOpts_lookup (oks : List String) (defaults : List (String × String))
    (ch : List XElem) (k : String) (hk : k ∈ oks) :
    (loadOpts oks defaults ch).1.lookup k =
      some (match findTag ch k with
            | some e => e.text.getD ""
            | none => (defaults.lookup k).getD "") := by
  induction oks with
  | nil => simp at hk
  | cons k0 rest ihr =>
    rw [loadOpts.eq_def]
    by_cases hkk : k0 = k
    · subst hkk
      cases h : findTag ch k0 <;> simp [h, List.lookup]
    · have hne : (k == k0) = false := beq_eq_false_iff_ne.mpr (fun hh => hkk hh.symm)
      have hk' : k ∈ rest := by
        rcases List.mem_cons.mp hk with h1 | h1
        · exact absurd h1.symm hkk
        · exact h1
      cases h : findTag ch k0 <;> simp [h, List.lookup, hne, ihr hk']

/-- The element an option leaf reloads to *when its value survives the
textual layer verbatim*: `__repr__` writes `<key>value</key>` (an empty
string rather than an omitted element, and with no XML escaping), and
`ElementTree` yields `text = None` for `<key></key>` and the text otherwise.
This shape is only correct for values free of XML metacharacters; the
unconditional write-then-parse composite is `serializeParse` below, built on
`xmlDecodeText`, which corrupts or rejects values containing `&` or `<` and
coincides with `leafE` exactly on the safe values
(`leafParseList_of_safe`). -/
def leafE (p : String × String) : XElem :=
  XElem.mk p.1 (if p.2 = "" then none else some p.2) []

theorem leafE_tag (p : String × String) : (leafE p).tag = p.1 := by
  by_cases h : p.2 = "" <;> simp [leafE, XElem.tag, h]

theorem leafE_text (p : String × String) : (leafE p).text.getD "" = p.2 := by
  by_cases h : p.2 = "" <;> simp [leafE, XElem.text, h]

theorem mem_updateKeys_left (a b : List String) (x : String) (h : x ∈ a) :
    x ∈ updateKeys a b := by
  simp [updateKeys, h]

theorem mem_updateKeys_right (a b : List String) (x : String) (h : x ∈ b) :
    x ∈ updateKeys a b := by
  by_cases ha : x ∈ a
  · exact mem_updateKeys_left a b x ha
  · simp [updateKeys]
    right
    exact ⟨h, ha⟩

theorem findTag_none_of (l : List XElem) (k : String)
    (h : ∀ e ∈ l, e.tag ≠ k) : findTag l k = none := by
  induction l with
  | nil => simp [findTag]
  | cons e rest ihr =>
    have h1 : e.tag ≠ k := h e (by simp)
    simp only [findTag, List.find?_cons]
    have : (e.tag == k) = false := beq_eq_false_iff_ne.mpr h1
    rw [this]
    exact ihr (fun e' he' => h e' (by simp [he']))

theorem findTag_cons_ne (e : XElem) (rest : List XElem) (k : String)
    (h : e.tag ≠ k) : findTag (e :: rest) k = findTag rest k := by
  simp only [findTag, List.find?_cons]
  rw [beq_eq_false_iff_ne.mpr h]

theorem findTag_cons_eq (e : XElem) (rest : List XElem) (k : String)
    (h : e.tag = k) : findTag (e :: rest) k = some e := by
  simp only [findTag, List.find?_cons]
  rw [show (e.tag == k) = true from by simp [h]]

theorem findTag_append_none (a b : List XElem) (k : String)
    (h : findTag a k = none) : findTag (a ++ b) k = findTag b k := by
  induction a with
  | nil => simp
  | cons e rest ihr =>
    by_cases he : e.tag = k
    · rw [findTag_cons_eq e rest k he] at h
      exact absurd h (by simp)
    · rw [findTag_cons_ne e rest k he] at h
      rw [List.cons_append, findTag_cons_ne e _ k he]
      exact ihr h

theorem findTag_leaves_skip (opts : List (String × String)) (rest : List XElem)
    (t : String) (h : ¬ t ∈ opts.map Prod.fst) :
    findTag (opts.map leafE ++ rest) t = findTag rest t := by
  apply findTag_append_none
  apply findTag_none_of
  intro e he
  rcases List.mem_map.mp he with ⟨p, hp, hpe⟩
  rw [← hpe, leafE_tag]
  intro hc
  exact h (by rw [← hc]; exact List.mem_map_of_mem Prod.fst hp)

theorem findTag_map_leafE (opts : List (String × String)) (rest : List XElem)
    (p : String × String) (hnd : (opts.map Prod.fst).Nodup) (hp : p ∈ opts) :
    findTag (opts.map leafE ++ rest) p.1 = some (leafE p) := by
  induction opts with
  | nil => simp at hp
  | cons q qs ihr =>
    rcases List.mem_cons.mp hp with hq | hq
    · subst hq
      rw [List.map_cons, List.cons_append, findTag_cons_eq]
      exact leafE_tag p
    · have hne : q.1 ≠ p.1 := by
        intro hc
        have h1 : q.1 ∉ qs.map Prod.fst := (List.nodup_cons.mp (by simpa using hnd)).1
        exact h1 (by rw [hc]; exact List.mem_map_of_mem Prod.fst hq)
      rw [List.map_cons, List.cons_append,
        findTag_cons_ne _ _ _ (by rw [leafE_tag]; exact hne)]
      exact ihr (List.nodup_cons.mp (by simpa using hnd)).2 hq

theorem loadOpts_eq_of (opts : List (String × String))
    (defaults : List (String × String)) (ch : List XElem)
    (h : ∀ p ∈ opts, findTag ch p.1 = some (leafE p)) :
    loadOpts (opts.map Prod.fst) defaults ch = (opts, 0) := by
  induction opts with
  | nil => simp [loadOpts]
  | cons p ps ihr =>
    rw [List.map_cons, loadOpts.eq_def]
    simp [h p (by simp), ihr (fun q hq => h q (by simp [hq])), leafE_text]

theorem loadNode_keys (oksDecl vksDecl : List String)
    (defaults : List (String × String)) (children : List XElem) :
    (loadNode oksDecl vksDecl defaults children).options.map Prod.fst =
      updateKeys oksDecl (defaults.map Prod.fst) := by
  simp [loadNode, loadOpts_keys]

theorem filterNotMem_nil (dfs : List (String × String)) (tags : List String)
    (h : ∀ p ∈ dfs, p.1 ∈ tags) :
    dfs.filter (fun p => ¬ p.1 ∈ tags) = [] := by
  apply List.filter_eq_nil_iff.mpr
  intro p hp
  simp [h p hp]

/-- Reloading the printed form of a schema-conforming node changes nothing:
no child is pruned, no default is synthesized, no warning is emitted, and the
extracted options are exactly the printed ones. -/
theorem loadNode_serialized (oksDecl vksDecl : List String)
    (defaults : List (String × String)) (opts : List (String × String))
    (subEls : List XElem)
    (h1 : opts.map Prod.fst = updateKeys oksDecl (defaults.map Prod.fst))
    (h2 : (opts.map Prod.fst).Nodup)
    (h3 : ∀ e ∈ subEls,
      e.tag ∈ updateKeys vksDecl (updateKeys oksDecl (defaults.map Prod.fst)) ∧
      ¬ e.tag ∈ opts.map Prod.fst) :
    loadNode oksDecl vksDecl defaults (opts.map leafE ++ subEls) =
      ⟨opts.map leafE ++ subEls, opts, 0, 0, 0⟩ := by
  have hvalid : ∀ x ∈ opts.map leafE ++ subEls,
      x.tag ∈ updateKeys vksDecl (updateKeys oksDecl (defaults.map Prod.fst)) := by
    intro x hx
    rcases List.mem_append.mp hx with hx | hx
    · rcases List.mem_map.mp hx with ⟨p, hp, hpe⟩
      apply mem_updateKeys_right
      rw [← h1, ← hpe, leafE_tag]
      exact List.mem_map_of_mem Prod.fst hp
    · exact (h3 x hx).1
  have hgo := go_allValid _ _ hvalid
  have hsubs : ∀ p ∈ defaults,
      p.1 ∈ (opts.map leafE ++ subEls).map XElem.tag := by
    intro p hp
    have : p.1 ∈ opts.map Prod.fst := by
      rw [h1]
      exact mem_updateKeys_right _ _ _ (List.mem_map_of_mem Prod.fst hp)
    rcases List.mem_map.mp this with ⟨q, hq, hqe⟩
    rw [← hqe]
    exact List.mem_map.mpr ⟨leafE q,
      List.mem_append_left _ (List.mem_map_of_mem leafE hq), leafE_tag q⟩
  have hfind : ∀ p ∈ opts, findTag (opts.map leafE ++ subEls) p.1 = some (leafE p) :=
    fun p hp => findTag_map_leafE opts subEls p h2 hp
  simp only [loadNode, hgo, filterNotMem_nil defaults _ hsubs, List.map_nil,
    List.append_nil, List.length_nil]
  rw [← h1, loadOpts_eq_of opts defaults _ hfind]

theorem findTag_synthList (defaults : List (String × String)) (subs : List String)
    (k : String) (hk : ¬ k ∈ subs) :
    findTag ((defaults.filter (fun p => ¬ p.1 ∈ subs)).map
        (fun p => XElem.mk p.1 (some p.2) [])) k =
      (defaults.lookup k).map (fun v => XElem.mk k (some v) []) := by
  induction defaults with
  | nil => simp [findTag, List.lookup]
  | cons q rest ihr =>
    by_cases hq : q.1 = k
    · have hpred : ¬ q.1 ∈ subs := by rw [hq]; exact hk
      rw [List.filter_cons_of_pos (by simpa using hpred), List.map_cons,
        findTag_cons_eq _ _ _ (by simpa [XElem.tag] using hq)]
      cases q with
      | mk q1 q2 =>
        simp only at hq
        simp [List.lookup, hq]
    · have hne : (k == q.1) = false := beq_eq_false_iff_ne.mpr (fun h => hq h.symm)
      by_cases hpred : q.1 ∈ subs
      · rw [List.filter_cons_of_neg (by simpa using hpred), ihr]
        cases q with
        | mk q1 q2 => simp [List.lookup, hne]
      · rw [List.filter_cons_of_pos (by simpa using hpred), List.map_cons,
          findTag_cons_ne _ _ _ (by simpa [XElem.tag] using hq), ihr]
        cases q with
        | mk q1 q2 => simp [List.lookup, hne]

/-- A declared option key for which the input element has no child leaf ends
up bound to the schema default, or to `""` when the key has no default. -/
theorem loadNode_missing (oksDecl vksDecl : List String)
    (defaults : List (String × String)) (children : List XElem) (k : String)
    (hk : k ∈ updateKeys oksDecl (defaults.map Prod.fst))
    (hmiss : ∀ c ∈ children, c.tag ≠ k) :
    (loadNode oksDecl vksDecl defaults children).options.lookup k =
      some ((defaults.lookup k).getD "") := by
  have hknsubs : ¬ k ∈ (pruneScanGo
      (updateKeys vksDecl (updateKeys oksDecl (defaults.map Prod.fst)))
      children).2.2 := by
    intro hc
    rcases List.mem_map.mp (go_subs_sub _ _ k hc) with ⟨e, he, hek⟩
    exact hmiss e he hek
  have hfind1 : findTag (pruneScanGo
      (updateKeys vksDecl (updateKeys oksDecl (defaults.map Prod.fst)))
      children).1 k = none := by
    apply findTag_none_of
    intro e he
    exact hmiss e (go_members _ _ e he)
  simp only [loadNode]
  rw [loadOpts_lookup _ _ _ k hk, findTag_append_none _ _ _ hfind1,
    findTag_synthList defaults _ k hknsubs]
  cases h : defaults.lookup k <;> simp [XElem.text]

/-! ## The node catalog

Each Python catalog class becomes one definition.  A constructed node is
modelled by the data serialization depends on: `UVConfigBase.__repr__` renders
the tag, the options in declaration order and the subconfigs recursively —
the raw element children are never rendered (the child-rendering loop in the
source is commented out), and after construction they are only written to
(by `link` / `sync_options`), never read back into `options` or `subconfigs`.
The `assert self.tag == ...` guards of the sub-level classes can only fire on
elements whose tag differs from the requested one; every internal call site
passes `find("./Tag")` results (or `None`), so they always hold and the tag is
recorded literally.  `UVProject.__init__`'s root-tag assertion is modelled
explicitly in `uvProjectE`. -/

inductive Node : Type where
  | mk (tag : String) (options : List (String × String)) (subs : List Node)

def Node.tag : Node → String
  | .mk t _ _ => t

def Node.options : Node → List (String × String)
  | .mk _ o _ => o

def Node.subs : Node → List Node
  | .mk _ _ s => s

mutual

/-- `UVConfigBase.__repr__` composed with re-parsing, *assuming every option
value passes through the textual layer verbatim* (see `serializeParse` for
the unconditional composite): `<tag>`, then the options in declaration order
as text leaves, then the subconfigs. -/
def serializeElem : Node → XElem
  | .mk t opts subs => XElem.mk t none (opts.map leafE ++ serializeList subs)

def serializeList : List Node → List XElem
  | [] => []
  | n :: rest => serializeElem n :: serializeList rest

end

theorem serializeList_eq_map (l : List Node) :
    serializeList l = l.map serializeElem := by
  induction l with
  | nil => rfl
  | cons n rest ihr => rw [serializeList, ihr, List.map_cons]

/-- `UVTargetCommonOption.TargetStatus` schema. -/
def targetStatusDefaults : List (String × String) :=
  [("Error", "0"), ("ExitCodeStop", "0"), ("ButtonStop", "0"),
    ("NotGenerated", "0"), ("InvalidFlash", "1")]

def uvTargetStatus (o : Option XElem) : Node :=
  let e := elemOr o "TargetStatus"
  let r := loadNode (targetStatusDefaults.map Prod.fst)
    (targetStatusDefaults.map Prod.fst) targetStatusDefaults e.children
  Node.mk "TargetStatus" r.options []

/-- `UVTargetCommonOption.CostumeCommands` schema (`id` is interpolated into
two key names). -/
def costumeCommandsDefaults (id : String) : List (String × String) :=
  [("RunUserProg1", "0"), ("RunUserProg2", "0"), ("UserProg1Name", ""),
    ("UserProg2Name", ""), ("UserProg1Dos16Mode", "0"),
    ("UserProg2Dos16Mode", "0"), ("nStop" ++ id ++ "1X", "0"),
    ("nStop" ++ id ++ "2X", "0")]

def uvCostumeCommands (o : Option XElem) (id default_tag : String) : Node :=
  let e := elemOr o default_tag
  let r := loadNode ((costumeCommandsDefaults id).map Prod.fst)
    ((costumeCommandsDefaults id).map Prod.fst) (costumeCommandsDefaults id)
    e.children
  Node.mk default_tag r.options []

/-- `UVTargetCommonOption` schema.  (`option_keys` is
`dict.fromkeys(default_opts) | {"OutputName": None}`; `"OutputName"` is
already a default key, so the union is the default-key list itself.) -/
def commonOptionDefaults : List (String × String) :=
  [("Device", "STM32F103ZE"),
    ("Vendor", "STMicroelectronics"),
    ("PackID", "Keil.STM32F1xx_DFP.2.4.1"),
    ("PackURL", "https://www.keil.com/pack/"),
    ("Cpu", "IRAM(0x20000000,0x00010000) IROM(0x08000000,0x00080000) CPUTYPE(\"Cortex-M3\") CLOCK(12000000) ELITTLE"),
    ("FlashUtilSpec", ""),
    ("StartupFile", ""),
    ("FlashDriverDll", "UL2CM3(-S0 -C0 -P0 -FD20000000 -FC1000 -FN1 -FF0STM32F10x_512 -FS08000000 -FL080000 -FP0($$Device:STM32F103ZE$Flash\\STM32F10x_512.FLM))"),
    ("DeviceId", "0"),
    ("RegisterFile", "$$Device:STM32F103ZE$Device\\Include\\stm32f10x.h"),
    ("MemoryEnv", ""),
    ("Cmp", ""),
    ("Asm", ""),
    ("Linker", ""),
    ("OHString", ""),
    ("InfinionOptionDll", ""),
    ("SLE66CMisc", ""),
    ("SLE66AMisc", ""),
    ("SLE66LinkerMisc", ""),
    ("SFDFile", "$$Device:STM32F103ZE$SVD\\STM32F103xx.svd"),
    ("bCustSvd", "0"),
    ("UseEnv", "0"),
    ("BinPath", ""),
    ("IncludePath", ""),
    ("LibPath", ""),
    ("RegisterFilePath", ""),
    ("DBRegisterFilePath", ""),
    ("OutputDirectory", ".\\Objects\\"),
    ("OutputName", ""),
    ("CreateExecutable", "1"),
    ("CreateLib", "0"),
    ("CreateHexFile", "1"),
    ("DebugInformation", "1"),
    ("BrowseInformation", "1"),
    ("ListingPath", ".\\Listings\\"),
    ("HexFormatSelection", "1"),
    ("Merge32K", "0"),
    ("CreateBatchFile", "0"),
    ("SelectedForBatchBuild", "0"),
    ("SVCSIdString", "")]

def commonOptionStructTags : List String :=
  ["TargetStatus", "BeforeCompile", "BeforeMake", "AfterMake"]

def uvTargetCommonOption (o : Option XElem) : Node :=
  let e := elemOr o "TargetCommonOption"
  let r := loadNode (commonOptionDefaults.map Prod.fst)
    (commonOptionDefaults.map Prod.fst ++ commonOptionStructTags)
    commonOptionDefaults e.children
  Node.mk "TargetCommonOption" r.options
    [uvTargetStatus (findTag r.children "TargetStatus"),
      uvCostumeCommands (findTag r.children "BeforeCompile") "U" "BeforeCompile",
      uvCostumeCommands (findTag r.children "BeforeMake") "B" "BeforeMake",
      uvCostumeCommands (findTag r.children "AfterMake") "A" "AfterMake"]

/-- `UVCommonProperty` schema. -/
def commonPropertyDefaults : List (String × String) :=
  [("UseCPPCompiler", "0"), ("RVCTCodeConst", "0"), ("RVCTZI", "0"),
    ("RVCTOtherData", "0"), ("ModuleSelection", "0"), ("IncludeInBuild", "1"),
    ("AlwaysBuild", "0"), ("GenerateAssemblyFile", "0"),
    ("AssembleAssemblyFile", "0"), ("PublicsOnly", "0"), ("StopOnExitCode", "3"),
    ("CustomArgument", ""), ("IncludeLibraryModules", ""), ("ComprImg", "1")]

def uvCommonProperty (o : Option XElem) : Node :=
  let e := elemOr o "CommonProperty"
  let r := loadNode (commonPropertyDefaults.map Prod.fst)
    (commonPropertyDefaults.map Prod.fst) commonPropertyDefaults e.children
  Node.mk "CommonProperty" r.options []

/-- `UVDllOption` schema. -/
def dllOptionDefaults : List (String × String) :=
  [("SimDllName", "SARMCM3.DLL"), ("SimDllArguments", "-REMAP"),
    ("SimDlgDll", "DCM.DLL"), ("SimDlgDllArguments", ""),
    ("TargetDllName", "SARMCM3.DLL"), ("TargetDllArguments", ""),
    ("TargetDlgDll", "TCM.DLL"), ("TargetDlgDllArguments", "-pCM3")]

def uvDllOption (o : Option XElem) : Node :=
  let e := elemOr o "DllOption"
  let r := loadNode (dllOptionDefaults.map Prod.fst)
    (dllOptionDefaults.map Prod.fst) dllOptionDefaults e.children
  Node.mk "DllOption" r.options []

/-- `UVDebugOption.OPTHX` schema. -/
def opthxDefaults : List (String × String) :=
  [("HexSelection", "1"), ("HexRangeLowAddress", "0"),
    ("HexRangeHighAddress", "0"), ("HexOffset", "0"), ("Oh166RecLen", "16")]

def uvOPTHX (o : Option XElem) : Node :=
  let e := elemOr o "OPTHX"
  let r := loadNode (opthxDefaults.map Prod.fst) (opthxDefaults.map Prod.fst)
    opthxDefaults e.children
  Node.mk "OPTHX" r.options []

def uvDebugOptionValidKeys : List String := ["OPTHX"]

/-- `UVDebugOption.__init__`: it records `valid_keys = {"OPTHX": None}` and
wires its `OPTHX` subconfig, but — unlike every other option-bearing class —
never calls `self.load()`, so its `options` stay empty. -/
def uvDebugOption (o : Option XElem) : Node :=
  let e := elemOr o "DebugOption"
  Node.mk "DebugOption" [] [uvOPTHX (findTag e.children "OPTHX")]

/-- The raw children a `UVDebugOption` node is left with: the copy
constructor `UVConfigBase.__init__` migrates every child of the wrapped
element, and since `UVDebugOption.__init__` never invokes `load()`, nothing
is ever pruned. -/
def uvDebugOptionChildren (e : XElem) : List XElem := e.children

/-- `UVUtilities.Flash1` schema. -/
def flash1Defaults : List (String × String) :=
  [("UseTargetDll", "1"), ("UseExternalTool", "0"), ("RunIndependent", "0"),
    ("UpdateFlashBeforeDebugging", "1"), ("Capability", "1"),
    ("DriverSelection", "4101")]

def uvFlash1 (o : Option XElem) : Node :=
  let e := elemOr o "Flash1"
  let r := loadNode (flash1Defaults.map Prod.fst) (flash1Defaults.map Prod.fst)
    flash1Defaults e.children
  Node.mk "Flash1" r.options []

/-- `UVUtilities` schema. -/
def utilitiesDefaults : List (String × String) :=
  [("bUseTDR", "1"), ("Flash2", "BIN\\UL2CM3.DLL"), ("Flash3", ""),
    ("Flash4", ""), ("pFcarmOut", ""), ("pFcarmGrp", ""), ("pFcArmRoot", ""),
    ("FcArmLst", "0")]

def uvUtilities (o : Option XElem) : Node :=
  let e := elemOr o "Utilities"
  let r := loadNode (utilitiesDefaults.map Prod.fst)
    (utilitiesDefaults.map Prod.fst ++ ["Flash1"]) utilitiesDefaults e.children
  Node.mk "Utilities" r.options [uvFlash1 (findTag r.children "Flash1")]

/-- `UVArmAdsMisc.OnChipMemories.Memory` schema (the tag parameterizes the
node name: `Ocm1`..`Ocm6`, `IRAM`, `IROM`, `XRAM`, `OCR_RVCT1`..`OCR_RVCT10`). -/
def memoryDefaults : List (String × String) :=
  [("Type", "0"), ("StartAddress", "0x0"), ("Size", "0x0")]

def uvMemory (o : Option XElem) (tag : String) : Node :=
  let e := elemOr o tag
  let r := loadNode (memoryDefaults.map Prod.fst) (memoryDefaults.map Prod.fst)
    memoryDefaults e.children
  Node.mk tag r.options []

def onChipMemoryTags : List String :=
  ["Ocm1", "Ocm2", "Ocm3", "Ocm4", "Ocm5", "Ocm6", "IRAM", "IROM", "XRAM",
    "OCR_RVCT1", "OCR_RVCT2", "OCR_RVCT3", "OCR_RVCT4", "OCR_RVCT5",
    "OCR_RVCT6", "OCR_RVCT7", "OCR_RVCT8", "OCR_RVCT9", "OCR_RVCT10"]

/-- `UVArmAdsMisc.OnChipMemories.__init__`: builds the 19 memory subconfigs
(in source order) and, like `UVDebugOption`, never calls `load()`. -/
def uvOnChipMemories (o : Option XElem) : Node :=
  let e := elemOr o "OnChipMemories"
  Node.mk "OnChipMemories" []
    (onChipMemoryTags.map (fun t => uvMemory (findTag e.children t) t))

/-- `UVArmAdsMisc` schema. -/
def armAdsMiscDefaults : List (String × String) :=
  [("GenerateListings", "0"), ("asHll", "1"), ("asAsm", "1"), ("asMacX", "1"),
    ("asSyms", "1"), ("asFals", "1"), ("asDbgD", "1"), ("asForm", "1"),
    ("ldLst", "0"), ("ldmm", "1"), ("ldXref", "1"), ("BigEnd", "0"),
    ("AdsALst", "1"), ("AdsACrf", "1"), ("AdsANop", "0"), ("AdsANot", "0"),
    ("AdsLLst", "1"), ("AdsLmap", "1"), ("AdsLcgr", "1"), ("AdsLsym", "1"),
    ("AdsLszi", "1"), ("AdsLtoi", "1"), ("AdsLsun", "1"), ("AdsLven", "1"),
    ("AdsLsxf", "1"), ("RvctClst", "0"), ("GenPPlst", "0"),
    ("AdsCpuType", "\"Cortex-M3\""), ("RvctDeviceName", ""), ("mOS", "0"),
    ("uocRom", "0"), ("uocRam", "0"), ("hadIROM", "1"), ("hadIRAM", "1"),
    ("hadXRAM", "0"), ("uocXRam", "0"), ("RvdsVP", "0"), ("RvdsMve", "0"),
    ("RvdsCdeCp", "0"), ("nBranchProt", "0"), ("hadIRAM2", "0"),
    ("hadIROM2", "0"), ("StupSel", "8"), ("useUlib", "0"), ("EndSel", "0"),
    ("uLtcg", "0"), ("nSecure", "0"), ("RoSelD", "3"), ("RwSelD", "3"),
    ("CodeSel", "0"), ("OptFeed", "0"), ("NoZi1", "0"), ("NoZi2", "0"),
    ("NoZi3", "0"), ("NoZi4", "0"), ("NoZi5", "0"), ("Ro1Chk", "0"),
    ("Ro2Chk", "0"), ("Ro3Chk", "0"), ("Ir1Chk", "1"), ("Ir2Chk", "0"),
    ("Ra1Chk", "0"), ("Ra2Chk", "0"), ("Ra3Chk", "0"), ("Im1Chk", "1"),
    ("Im2Chk", "0"), ("RvctStartVector", "")]

def uvArmAdsMisc (o : Option XElem) : Node :=
  let e := elemOr o "ArmAdsMisc"
  let r := loadNode (armAdsMiscDefaults.map Prod.fst)
    (armAdsMiscDefaults.map Prod.fst ++ ["OnChipMemories"]) armAdsMiscDefaults
    e.children
  Node.mk "ArmAdsMisc" r.options
    [uvOnChipMemories (findTag r.children "OnChipMemories")]

/-- `UVVariousControls` schema. -/
def variousControlsDefaults : List (String × String) :=
  [("MiscControls", ""), ("Define", ""), ("Undefine", ""), ("IncludePath", "")]

def uvVariousControls (o : Option XElem) : Node :=
  let e := elemOr o "VariousControls"
  let r := loadNode (variousControlsDefaults.map Prod.fst)
    (variousControlsDefaults.map Prod.fst) variousControlsDefaults e.children
  Node.mk "VariousControls" r.options []

/-- `UVCads` schema. -/
def cadsDefaults : List (String × String) :=
  [("interw", "1"), ("Optim", "1"), ("oTime", "0"), ("SplitLS", "0"),
    ("OneElfS", "1"), ("Strict", "0"), ("EnumInt", "0"), ("PlainCh", "0"),
    ("Ropi", "0"), ("Rwpi", "0"), ("wLevel", "2"), ("uThumb", "0"),
    ("uSurpInc", "0"), ("uC99", "1"), ("uGnu", "1"), ("useXO", "0"),
    ("v6Lang", "5"), ("v6LangP", "3"), ("vShortEn", "1"), ("vShortWch", "1"),
    ("v6Lto", "0"), ("v6WtE", "0"), ("v6Rtti", "0")]

def uvCads (o : Option XElem) : Node :=
  let e := elemOr o "Cads"
  let r := loadNode (cadsDefaults.map Prod.fst)
    (cadsDefaults.map Prod.fst ++ ["VariousControls"]) cadsDefaults e.children
  Node.mk "Cads" r.options
    [uvVariousControls (findTag r.children "VariousControls")]

/-- `UVAads` schema. -/
def aadsDefaults : List (String × String) :=
  [("interw", "1"), ("Ropi", "0"), ("Rwpi", "0"), ("thumb", "0"),
    ("SplitLS", "0"), ("SwStkChk", "0"), ("NoWarn", "0"), ("uSurpInc", "0"),
    ("useXO", "0"), ("ClangAsOpt", "1")]

def uvAads (o : Option XElem) : Node :=
  let e := elemOr o "Aads"
  let r := loadNode (aadsDefaults.map Prod.fst)
    (aadsDefaults.map Prod.fst ++ ["VariousControls"]) aadsDefaults e.children
  Node.mk "Aads" r.options
    [uvVariousControls (findTag r.children "VariousControls")]

/-- `UVLDads` schema. -/
def ldadsDefaults : List (String × String) :=
  [("umfTarg", "1"), ("Ropi", "0"), ("Rwpi", "0"), ("noStLib", "0"),
    ("RepFail", "1"), ("useFile", "0"), ("TextAddressRange", "0x08000000"),
    ("DataAddressRange", "0x20000000"), ("pXoBase", ""), ("ScatterFile", ""),
    ("IncludeLibs", ""), ("IncludeLibsPath", ""), ("Misc", ""),
    ("LinkerInputFile", ""), ("DisabledWarnings", "")]

def uvLDads (o : Option XElem) : Node :=
  let e := elemOr o "LDads"
  let r := loadNode (ldadsDefaults.map Prod.fst) (ldadsDefaults.map Prod.fst)
    ldadsDefaults e.children
  Node.mk "LDads" r.options []

def uvFileKeys : List String := ["FileName", "FileType", "FilePath"]

/-- `UVGroup.Files.File.__init__`: three option keys, no defaults. -/
def uvFile (o : Option XElem) : Node :=
  let e := elemOr o "File"
  let r := loadNode uvFileKeys uvFileKeys [] e.children
  Node.mk "File" r.options []

/-- `UVGroup.Files.__init__`: records `valid_keys = {"File": None}`, collects
`iterfind("./File")` into the file list, and — like `UVDebugOption` — never
calls `load()`. -/
def uvFiles (o : Option XElem) : Node :=
  let e := elemOr o "Files"
  Node.mk "Files" []
    ((e.children.filter (fun c => c.tag == "File")).map (fun c => uvFile (some c)))

/-- `UVGroup.__init__`. -/
def uvGroup (o : Option XElem) : Node :=
  let e := elemOr o "Group"
  let r := loadNode ["GroupName"] ["GroupName", "Files"]
    [("GroupName", "DefaultGroupName")] e.children
  Node.mk "Group" r.options [uvFiles (findTag r.children "Files")]

/-- `UVTarget.TargetOption.TargetArmAds.__init__`. -/
def uvTargetArmAds (o : Option XElem) : Node :=
  let e := elemOr o "TargetArmAds"
  let r := loadNode [] ["ArmAdsMisc", "Cads", "Aads", "LDads"] [] e.children
  Node.mk "TargetArmAds" r.options
    [uvArmAdsMisc (findTag r.children "ArmAdsMisc"),
      uvCads (findTag r.children "Cads"),
      uvAads (findTag r.children "Aads"),
      uvLDads (findTag r.children "LDads")]

def targetOptionStructTags : List String :=
  ["TargetCommonOption", "CommonProperty", "DllOption", "DebugOption",
    "Utilities", "TargetArmAds"]

/-- `UVTarget.TargetOption.__init__`. -/
def uvTargetOption (o : Option XElem) : Node :=
  let e := elemOr o "TargetOption"
  let r := loadNode [] targetOptionStructTags [] e.children
  Node.mk "TargetOption" r.options
    [uvTargetCommonOption (findTag r.children "TargetCommonOption"),
      uvCommonProperty (findTag r.children "CommonProperty"),
      uvDllOption (findTag r.children "DllOption"),
      uvDebugOption (findTag r.children "DebugOption"),
      uvUtilities (findTag r.children "Utilities"),
      uvTargetArmAds (findTag r.children "TargetArmAds")]

/-- `UVTarget.Groups.__init__`: loads, then maps `iterfind("./Group")`. -/
def uvGroups (o : Option XElem) : Node :=
  let e := elemOr o "Groups"
  let r := loadNode [] ["Group"] [] e.children
  Node.mk "Groups" r.options
    ((r.children.filter (fun c => c.tag == "Group")).map (fun c => uvGroup (some c)))

/-- `UVTarget` schema. -/
def targetDefaults : List (String × String) :=
  [("ToolsetNumber", "0x4"), ("ToolsetName", "ARM_ADS"),
    ("pCCUsed", "6240000::V6.24::ARMCLANG"), ("uAC6", "1"),
    ("TargetName", "DefaultTargetName")]

/-- `UVTarget.__init__`. -/
def uvTarget (o : Option XElem) : Node :=
  let e := elemOr o "Target"
  let r := loadNode (targetDefaults.map Prod.fst)
    (targetDefaults.map Prod.fst ++ ["TargetOption", "Groups"]) targetDefaults
    e.children
  Node.mk "Target" r.options
    [uvTargetOption (findTag r.children "TargetOption"),
      uvGroups (findTag r.children "Groups")]

/-- `UVProject.Targets.__init__`: loads, maps `iterfind("./Target")`, and when
no target was found appends one default-constructed `UVTarget(None)` (with a
warning). -/
def uvTargets (o : Option XElem) : Node :=
  let e := elemOr o "Targets"
  let r := loadNode [] ["Target"] [] e.children
  let ts := (r.children.filter (fun c => c.tag == "Target")).map
    (fun c => uvTarget (some c))
  Node.mk "Targets" r.options (if ts.isEmpty then [uvTarget none] else ts)

/-- `UVRTE.__init__`: three option keys, no defaults. -/
def uvRTE (o : Option XElem) : Node :=
  let e := elemOr o "RTE"
  let r := loadNode ["apis", "components", "files"]
    ["apis", "components", "files"] [] e.children
  Node.mk "RTE" r.options []

/-- `UVLayer.__init__`. -/
def uvLayer (o : Option XElem) : Node :=
  let e := elemOr o "Layer"
  let r := loadNode ["LayName", "LayPrjMark"] ["LayName", "LayPrjMark"] []
    e.children
  Node.mk "Layer" r.options []

/-- `UVProject.Layers.__init__`. -/
def uvLayers (o : Option XElem) : Node :=
  let e := elemOr o "Layers"
  let r := loadNode [] ["Layer"] [] e.children
  Node.mk "Layers" r.options
    ((r.children.filter (fun c => c.tag == "Layer")).map (fun c => uvLayer (some c)))

/-- `UVProject.LayerInfo.__init__`. -/
def uvLayerInfo (o : Option XElem) : Node :=
  let e := elemOr o "LayerInfo"
  let r := loadNode [] ["Layers"] [] e.children
  Node.mk "LayerInfo" r.options [uvLayers (findTag r.children "Layers")]

/-- `UVProject` schema. -/
def projectDefaults : List (String × String) :=
  [("SchemaVersion", "2.1"), ("Header", "### uVision Project, (C) Keil Software")]

/-- The body of `UVProject.__init__` after the root-tag assertion: load, then
construct `Targets`, `RTE` and `LayerInfo`.  The trailing `self.link()` only
rewrites raw element children, which serialization never reads, so it does not
appear in the node model (the `link` operation itself is studied separately on
`CNode`). -/
def uvProjectBody (e : XElem) : Node :=
  let r := loadNode (projectDefaults.map Prod.fst)
    (projectDefaults.map Prod.fst ++ ["Targets", "RTE", "LayerInfo"])
    projectDefaults e.children
  Node.mk "Project" r.options
    [uvTargets (findTag r.children "Targets"),
      uvRTE (findTag r.children "RTE"),
      uvLayerInfo (findTag r.children "LayerInfo")]

/-- The error taxonomy of the spec, for the failure modes the model makes
explicit. -/
inductive UVErr : Type where
  | malformedDocument
  | duplicateName
  | invalidIdentifier
  | invalidPath
  | missingName
deriving DecidableEq, Repr

/-- `UVProject.__init__`: the root-tag assertion `self.tag == "Project"` runs
directly after the child-copying base constructor and before `load()` or any
child construction, so a mismatched root fails before any child is examined. -/
def uvProjectE (e : XElem) : Except UVErr Node :=
  if e.tag = "Project" then .ok (uvProjectBody e) else .error .malformedDocument

theorem updateKeys_of_subset (a b : List String) (h : ∀ x ∈ b, x ∈ a) :
    updateKeys a b = a := by
  simp only [updateKeys, List.append_right_eq_self]
  apply List.filter_eq_nil_iff.mpr
  intro x hx
  simp [h x hx]

theorem serializeElem_tag (n : Node) : (serializeElem n).tag = n.tag := by
  cases n
  rfl

theorem serializeElem_children (t : String) (opts : List (String × String))
    (subs : List Node) :
    (serializeElem (Node.mk t opts subs)).children =
      opts.map leafE ++ serializeList subs := by
  rfl

/-! ## Schema conformance

`conformsC n` says `n` has the shape class `C` always establishes: the class
tag, the option keys of the class schema (in declaration order), and
conforming subconfigs in catalog order.  Values are unconstrained. -/

def conformsTargetStatus (n : Node) : Prop :=
  n.tag = "TargetStatus" ∧
  n.options.map Prod.fst = targetStatusDefaults.map Prod.fst ∧ n.subs = []

def conformsCostume (id tg : String) (n : Node) : Prop :=
  n.tag = tg ∧
  n.options.map Prod.fst = (costumeCommandsDefaults id).map Prod.fst ∧
  n.subs = []

def conformsTargetCommonOption (n : Node) : Prop :=
  n.tag = "TargetCommonOption" ∧
  n.options.map Prod.fst = commonOptionDefaults.map Prod.fst ∧
  ∃ a b c d, n.subs = [a, b, c, d] ∧ conformsTargetStatus a ∧
    conformsCostume "U" "BeforeCompile" b ∧ conformsCostume "B" "BeforeMake" c ∧
    conformsCostume "A" "AfterMake" d

def conformsCommonProperty (n : Node) : Prop :=
  n.tag = "CommonProperty" ∧
  n.options.map Prod.fst = commonPropertyDefaults.map Prod.fst ∧ n.subs = []

def conformsDllOption (n : Node) : Prop :=
  n.tag = "DllOption" ∧
  n.options.map Prod.fst = dllOptionDefaults.map Prod.fst ∧ n.subs = []

def conformsOPTHX (n : Node) : Prop :=
  n.tag = "OPTHX" ∧
  n.options.map Prod.fst = opthxDefaults.map Prod.fst ∧ n.subs = []

def conformsDebugOption (n : Node) : Prop :=
  n.tag = "DebugOption" ∧ n.options = [] ∧
  ∃ a, n.subs = [a] ∧ conformsOPTHX a

def conformsFlash1 (n : Node) : Prop :=
  n.tag = "Flash1" ∧
  n.options.map Prod.fst = flash1Defaults.map Prod.fst ∧ n.subs = []

def conformsUtilities (n : Node) : Prop :=
  n.tag = "Utilities" ∧
  n.options.map Prod.fst = utilitiesDefaults.map Prod.fst ∧
  ∃ a, n.subs = [a] ∧ conformsFlash1 a

def conformsMemory (tg : String) (n : Node) : Prop :=
  n.tag = tg ∧
  n.options.map Prod.fst = memoryDefaults.map Prod.fst ∧ n.subs = []

def conformsOnChipMemories (n : Node) : Prop :=
  n.tag = "OnChipMemories" ∧ n.options = [] ∧
  n.subs.map Node.tag = onChipMemoryTags ∧
  ∀ m ∈ n.subs, conformsMemory m.tag m

def conformsArmAdsMisc (n : Node) : Prop :=
  n.tag = "ArmAdsMisc" ∧
  n.options.map Prod.fst = armAdsMiscDefaults.map Prod.fst ∧
  ∃ a, n.subs = [a] ∧ conformsOnChipMemories a

def conformsVariousControls (n : Node) : Prop :=
  n.tag = "VariousControls" ∧
  n.options.map Prod.fst = variousControlsDefaults.map Prod.fst ∧ n.subs = []

def conformsCads (n : Node) : Prop :=
  n.tag = "Cads" ∧
  n.options.map Prod.fst = cadsDefaults.map Prod.fst ∧
  ∃ a, n.subs = [a] ∧ conformsVariousControls a

def conformsAads (n : Node) : Prop :=
  n.tag = "Aads" ∧
  n.options.map Prod.fst = aadsDefaults.map Prod.fst ∧
  ∃ a, n.subs = [a] ∧ conformsVariousControls a

def conformsLDads (n : Node) : Prop :=
  n.tag = "LDads" ∧
  n.options.map Prod.fst = ldadsDefaults.map Prod.fst ∧ n.subs = []

def conformsTargetArmAds (n : Node) : Prop :=
  n.tag = "TargetArmAds" ∧ n.options = [] ∧
  ∃ a b c d, n.subs = [a, b, c, d] ∧ conformsArmAdsMisc a ∧ conformsCads b ∧
    conformsAads c ∧ conformsLDads d

def conformsFile (n : Node) : Prop :=
  n.tag = "File" ∧ n.options.map Prod.fst = uvFileKeys ∧ n.subs = []

def conformsFiles (n : Node) : Prop :=
  n.tag = "Files" ∧ n.options = [] ∧ ∀ f ∈ n.subs, conformsFile f

def conformsGroup (n : Node) : Prop :=
  n.tag = "Group" ∧ n.options.map Prod.fst = ["GroupName"] ∧
  ∃ a, n.subs = [a] ∧ conformsFiles a

def conformsGroups (n : Node) : Prop :=
  n.tag = "Groups" ∧ n.options = [] ∧ ∀ g ∈ n.subs, conformsGroup g

def conformsTargetOption (n : Node) : Prop :=
  n.tag = "TargetOption" ∧ n.options = [] ∧
  ∃ a b c d e f, n.subs = [a, b, c, d, e, f] ∧ conformsTargetCommonOption a ∧
    conformsCommonProperty b ∧ conformsDllOption c ∧ conformsDebugOption d ∧
    conformsUtilities e ∧ conformsTargetArmAds f

def conformsTarget (n : Node) : Prop :=
  n.tag = "Target" ∧
  n.options.map Prod.fst = targetDefaults.map Prod.fst ∧
  ∃ a b, n.subs = [a, b] ∧ conformsTargetOption a ∧ conformsGroups b

def conformsTargets (n : Node) : Prop :=
  n.tag = "Targets" ∧ n.options = [] ∧ n.subs ≠ [] ∧
  ∀ t ∈ n.subs, conformsTarget t

def conformsRTE (n : Node) : Prop :=
  n.tag = "RTE" ∧
  n.options.map Prod.fst = ["apis", "components", "files"] ∧ n.subs = []

def conformsLayer (n : Node) : Prop :=
  n.tag = "Layer" ∧
  n.options.map Prod.fst = ["LayName", "LayPrjMark"] ∧ n.subs = []

def conformsLayers (n : Node) : Prop :=
  n.tag = "Layers" ∧ n.options = [] ∧ ∀ l ∈ n.subs, conformsLayer l

def conformsLayerInfo (n : Node) : Prop :=
  n.tag = "LayerInfo" ∧ n.options = [] ∧
  ∃ a, n.subs = [a] ∧ conformsLayers a

def conformsProject (n : Node) : Prop :=
  n.tag = "Project" ∧
  n.options.map Prod.fst = projectDefaults.map Prod.fst ∧
  ∃ a b c, n.subs = [a, b, c] ∧ conformsTargets a ∧ conformsRTE b ∧
    conformsLayerInfo c

theorem loadNode_keys_of_subset (oksDecl vksDecl : List String)
    (defaults : List (String × String)) (ch : List XElem)
    (h : ∀ x ∈ defaults.map Prod.fst, x ∈ oksDecl) :
    (loadNode oksDecl vksDecl defaults ch).options.map Prod.fst = oksDecl := by
  rw [loadNode_keys, updateKeys_of_subset _ _ h]

theorem uvTargetStatus_conf (o : Option XElem) :
    conformsTargetStatus (uvTargetStatus o) :=
  ⟨rfl, loadNode_keys_of_subset _ _ _ _ (fun _ hx => hx), rfl⟩

theorem uvCostumeCommands_conf (o : Option XElem) (id tg : String) :
    conformsCostume id tg (uvCostumeCommands o id tg) :=
  ⟨rfl, loadNode_keys_of_subset _ _ _ _ (fun _ hx => hx), rfl⟩

theorem uvTargetCommonOption_conf (o : Option XElem) :
    conformsTargetCommonOption (uvTargetCommonOption o) :=
  ⟨rfl, loadNode_keys_of_subset _ _ _ _ (fun _ hx => hx),
    _, _, _, _, rfl, uvTargetStatus_conf _, uvCostumeCommands_conf _ _ _,
    uvCostumeCommands_conf _ _ _, uvCostumeCommands_conf _ _ _⟩

theorem uvCommonProperty_conf (o : Option XElem) :
    conformsCommonProperty (uvCommonProperty o) :=
  ⟨rfl, loadNode_keys_of_subset _ _ _ _ (fun _ hx => hx), rfl⟩

theorem uvDllOption_conf (o : Option XElem) :
    conformsDllOption (uvDllOption o) :=
  ⟨rfl, loadNode_keys_of_subset _ _ _ _ (fun _ hx => hx), rfl⟩

theorem uvOPTHX_conf (o : Option XElem) : conformsOPTHX (uvOPTHX o) :=
  ⟨rfl, loadNode_keys_of_subset _ _ _ _ (fun _ hx => hx), rfl⟩

theorem uvDebugOption_conf (o : Option XElem) :
    conformsDebugOption (uvDebugOption o) :=
  ⟨rfl, rfl, _, rfl, uvOPTHX_conf _⟩

theorem uvFlash1_conf (o : Option XElem) : conformsFlash1 (uvFlash1 o) :=
  ⟨rfl, loadNode_keys_of_subset _ _ _ _ (fun _ hx => hx), rfl⟩

theorem uvUtilities_conf (o : Option XElem) :
    conformsUtilities (uvUtilities o) :=
  ⟨rfl, loadNode_keys_of_subset _ _ _ _ (fun _ hx => hx), _, rfl, uvFlash1_conf _⟩

theorem uvMemory_conf (o : Option XElem) (t : String) :
    conformsMemory t (uvMemory o t) :=
  ⟨rfl, loadNode_keys_of_subset _ _ _ _ (fun _ hx => hx), rfl⟩

theorem uvOnChipMemories_conf (o : Option XElem) :
    conformsOnChipMemories (uvOnChipMemories o) := by
  refine ⟨rfl, rfl, rfl, ?_⟩
  intro m hm
  rcases List.mem_map.mp hm with ⟨t, _, rfl⟩
  exact uvMemory_conf _ t

theorem uvArmAdsMisc_conf (o : Option XElem) :
    conformsArmAdsMisc (uvArmAdsMisc o) :=
  ⟨rfl, loadNode_keys_of_subset _ _ _ _ (fun _ hx => hx), _, rfl,
    uvOnChipMemories_conf _⟩

theorem uvVariousControls_conf (o : Option XElem) :
    conformsVariousControls (uvVariousControls o) :=
  ⟨rfl, loadNode_keys_of_subset _ _ _ _ (fun _ hx => hx), rfl⟩

theorem uvCads_conf (o : Option XElem) : conformsCads (uvCads o) :=
  ⟨rfl, loadNode_keys_of_subset _ _ _ _ (fun _ hx => hx), _, rfl,
    uvVariousControls_conf _⟩

theorem uvAads_conf (o : Option XElem) : conformsAads (uvAads o) :=
  ⟨rfl, loadNode_keys_of_subset _ _ _ _ (fun _ hx => hx), _, rfl,
    uvVariousControls_conf _⟩

theorem uvLDads_conf (o : Option XElem) : conformsLDads (uvLDads o) :=
  ⟨rfl, loadNode_keys_of_subset _ _ _ _ (fun _ hx => hx), rfl⟩

theorem uvTargetArmAds_conf (o : Option XElem) :
    conformsTargetArmAds (uvTargetArmAds o) :=
  ⟨rfl, rfl, _, _, _, _, rfl,
    uvArmAdsMisc_conf _, uvCads_conf _, uvAads_conf _, uvLDads_conf _⟩

theorem uvFile_conf (o : Option XElem) : conformsFile (uvFile o) :=
  ⟨rfl, loadNode_keys_of_subset _ _ _ _ (by simp), rfl⟩

theorem uvFiles_conf (o : Option XElem) : conformsFiles (uvFiles o) := by
  refine ⟨rfl, rfl, ?_⟩
  intro f hf
  rcases List.mem_map.mp hf with ⟨c, _, rfl⟩
  exact uvFile_conf _

theorem uvGroup_conf (o : Option XElem) : conformsGroup (uvGroup o) :=
  ⟨rfl, loadNode_keys_of_subset _ _ _ _ (by simp), _, rfl, uvFiles_conf _⟩

theorem uvGroups_conf (o : Option XElem) : conformsGroups (uvGroups o) := by
  refine ⟨rfl, rfl, ?_⟩
  intro g hg
  rcases List.mem_map.mp hg with ⟨c, _, rfl⟩
  exact uvGroup_conf _

theorem uvTargetOption_conf (o : Option XElem) :
    conformsTargetOption (uvTargetOption o) :=
  ⟨rfl, rfl, _, _, _, _, _, _, rfl,
    uvTargetCommonOption_conf _, uvCommonProperty_conf _, uvDllOption_conf _,
    uvDebugOption_conf _, uvUtilities_conf _, uvTargetArmAds_conf _⟩

theorem uvTarget_conf (o : Option XElem) : conformsTarget (uvTarget o) :=
  ⟨rfl, loadNode_keys_of_subset _ _ _ _ (fun _ hx => hx), _, _, rfl,
    uvTargetOption_conf _, uvGroups_conf _⟩

theorem uvTargets_conf (o : Option XElem) : conformsTargets (uvTargets o) := by
  refine ⟨rfl, rfl, ?_, ?_⟩
  all_goals simp only [uvTargets, Node.subs]
  · split
    · simp
    · rename_i h
      simpa [List.isEmpty_iff] using h
  · split
    · intro t ht
      rcases List.mem_singleton.mp ht with rfl
      exact uvTarget_conf none
    · intro t ht
      rcases List.mem_map.mp ht with ⟨c, hc, rfl⟩
      exact uvTarget_conf _

theorem uvRTE_conf (o : Option XElem) : conformsRTE (uvRTE o) :=
  ⟨rfl, loadNode_keys_of_subset _ _ _ _ (by simp), rfl⟩

theorem uvLayer_conf (o : Option XElem) : conformsLayer (uvLayer o) :=
  ⟨rfl, loadNode_keys_of_subset _ _ _ _ (by simp), rfl⟩

theorem uvLayers_conf (o : Option XElem) : conformsLayers (uvLayers o) := by
  refine ⟨rfl, rfl, ?_⟩
  intro l hl
  rcases List.mem_map.mp hl with ⟨c, _, rfl⟩
  exact uvLayer_conf _

theorem uvLayerInfo_conf (o : Option XElem) :
    conformsLayerInfo (uvLayerInfo o) :=
  ⟨rfl, rfl, _, rfl, uvLayers_conf _⟩

theorem uvProjectBody_conf (e : XElem) : conformsProject (uvProjectBody e) :=
  ⟨rfl, loadNode_keys_of_subset _ _ _ _ (fun _ hx => hx), _, _, _, rfl,
    uvTargets_conf _, uvRTE_conf _, uvLayerInfo_conf _⟩

/-! ## Reparse round-trip, class by class

For every catalog class `C`: reconstructing from the serialized form of a
conforming node gives back the node itself. -/

theorem uvTargetStatus_rt (n : Node) (h : conformsTargetStatus n) :
    uvTargetStatus (some (serializeElem n)) = n := by
  obtain ⟨ht, hk, hs⟩ := h
  cases n with
  | mk t opts subs =>
    simp only [Node.tag] at ht
    simp only [Node.options] at hk
    simp only [Node.subs] at hs
    subst ht hs
    simp only [uvTargetStatus, elemOr, Option.getD, serializeElem,
      XElem.children]
    rw [loadNode_serialized _ _ _ opts (serializeList [])
      (by rw [hk, updateKeys_of_subset _ _ (fun _ hx => hx)])
      (by rw [hk]; decide)
      (by simp [serializeList])]

theorem uvFlash1_rt (n : Node) (h : conformsFlash1 n) :
    uvFlash1 (some (serializeElem n)) = n := by
  obtain ⟨ht, hk, hs⟩ := h
  cases n with
  | mk t opts subs =>
    simp only [Node.tag] at ht
    simp only [Node.options] at hk
    simp only [Node.subs] at hs
    subst ht hs
    simp only [uvFlash1, elemOr, Option.getD, serializeElem,
      XElem.children]
    rw [loadNode_serialized _ _ _ opts (serializeList [])
      (by rw [hk, updateKeys_of_subset _ _ (fun _ hx => hx)])
      (by rw [hk]; decide)
      (by simp [serializeList])]

theorem uvUtilities_rt (n : Node) (h : conformsUtilities n) :
    uvUtilities (some (serializeElem n)) = n := by
  obtain ⟨ht, hk, f1, hs, hf1⟩ := h
  cases n with
  | mk t opts subs =>
    simp only [Node.tag] at ht
    simp only [Node.options] at hk
    simp only [Node.subs] at hs
    subst ht hs
    simp only [uvUtilities, elemOr, Option.getD, serializeElem,
      XElem.children]
    rw [loadNode_serialized _ _ _ opts (serializeList [f1])
      (by rw [hk, updateKeys_of_subset _ _ (fun _ hx => hx)])
      (by rw [hk]; decide)
      (by
        intro e he
        simp only [serializeList, List.mem_singleton] at he
        subst he
        rw [serializeElem_tag, hf1.1]
        exact ⟨by decide, by rw [hk]; decide⟩)]
    simp only [serializeList]
    rw [findTag_leaves_skip _ _ _ (by rw [hk]; decide),
      findTag_cons_eq _ _ _ (by rw [serializeElem_tag, hf1.1])]
    rw [uvFlash1_rt f1 hf1]

theorem filter_map_rt (gs : List Node) (T : String) (f : Option XElem → Node)
    (htag : ∀ g ∈ gs, g.tag = T)
    (hf : ∀ g ∈ gs, f (some (serializeElem g)) = g) :
    ((serializeList gs).filter (fun c => c.tag == T)).map
      (fun c => f (some c)) = gs := by
  induction gs with
  | nil => rfl
  | cons g rest ihr =>
    rw [serializeList,
      List.filter_cons_of_pos (by simp [serializeElem_tag, htag g (by simp)]),
      List.map_cons, hf g (by simp),
      ihr (fun g' h' => htag g' (by simp [h']))
        (fun g' h' => hf g' (by simp [h']))]

theorem map_findTag_aligned (subs : List Node) (tags : List String)
    (h : subs.map Node.tag = tags) (hnd : tags.Nodup)
    (f : Option XElem → String → Node)
    (hf : ∀ m ∈ subs, f (some (serializeElem m)) m.tag = m) :
    tags.map (fun t => f (findTag (serializeList subs) t) t) = subs := by
  induction subs generalizing tags with
  | nil =>
    subst h
    rfl
  | cons m rest ihr =>
    subst h
    rw [List.map_cons, List.map_cons]
    have hnd' := List.nodup_cons.mp hnd
    have hhead : findTag (serializeList (m :: rest)) m.tag = some (serializeElem m) := by
      rw [serializeList]
      exact findTag_cons_eq _ _ _ (serializeElem_tag m)
    have htail : ∀ t ∈ rest.map Node.tag,
        f (findTag (serializeList (m :: rest)) t) t =
          f (findTag (serializeList rest) t) t := by
      intro t ht
      rw [serializeList, findTag_cons_ne _ _ _
        (by rw [serializeElem_tag]; intro hc; exact hnd'.1 (hc ▸ ht))]
    rw [hhead, hf m (by simp), List.map_congr_left htail,
      ihr _ rfl hnd'.2 (fun m' h' => hf m' (by simp [h']))]

theorem uvCostumeCommands_rt (id tg : String) (n : Node)
    (hnd : ((costumeCommandsDefaults id).map Prod.fst).Nodup)
    (h : conformsCostume id tg n) :
    uvCostumeCommands (some (serializeElem n)) id tg = n := by
  obtain ⟨ht, hk, hs⟩ := h
  cases n with
  | mk t opts subs =>
    simp only [Node.tag] at ht
    simp only [Node.options] at hk
    simp only [Node.subs] at hs
    subst ht hs
    simp only [uvCostumeCommands, elemOr, Option.getD, serializeElem,
      XElem.children]
    rw [loadNode_serialized _ _ _ opts (serializeList [])
      (by rw [hk, updateKeys_of_subset _ _ (fun _ hx => hx)])
      (by rw [hk]; exact hnd)
      (by simp [serializeList])]

theorem uvCommonProperty_rt (n : Node) (h : conformsCommonProperty n) :
    uvCommonProperty (some (serializeElem n)) = n := by
  obtain ⟨ht, hk, hs⟩ := h
  cases n with
  | mk t opts subs =>
    simp only [Node.tag] at ht
    simp only [Node.options] at hk
    simp only [Node.subs] at hs
    subst ht hs
    simp only [uvCommonProperty, elemOr, Option.getD, serializeElem,
      XElem.children]
    rw [loadNode_serialized _ _ _ opts (serializeList [])
      (by rw [hk, updateKeys_of_subset _ _ (fun _ hx => hx)])
      (by rw [hk]; decide)
      (by simp [serializeList])]

theorem uvDllOption_rt (n : Node) (h : conformsDllOption n) :
    uvDllOption (some (serializeElem n)) = n := by
  obtain ⟨ht, hk, hs⟩ := h
  cases n with
  | mk t opts subs =>
    simp only [Node.tag] at ht
    simp only [Node.options] at hk
    simp only [Node.subs] at hs
    subst ht hs
    simp only [uvDllOption, elemOr, Option.getD, serializeElem,
      XElem.children]
    rw [loadNode_serialized _ _ _ opts (serializeList [])
      (by rw [hk, updateKeys_of_subset _ _ (fun _ hx => hx)])
      (by rw [hk]; decide)
      (by simp [serializeList])]

theorem uvOPTHX_rt (n : Node) (h : conformsOPTHX n) :
    uvOPTHX (some (serializeElem n)) = n := by
  obtain ⟨ht, hk, hs⟩ := h
  cases n with
  | mk t opts subs =>
    simp only [Node.tag] at ht
    simp only [Node.options] at hk
    simp only [Node.subs] at hs
    subst ht hs
    simp only [uvOPTHX, elemOr, Option.getD, serializeElem, XElem.children]
    rw [loadNode_serialized _ _ _ opts (serializeList [])
      (by rw [hk, updateKeys_of_subset _ _ (fun _ hx => hx)])
      (by rw [hk]; decide)
      (by simp [serializeList])]

theorem uvVariousControls_rt (n : Node) (h : conformsVariousControls n) :
    uvVariousControls (some (serializeElem n)) = n := by
  obtain ⟨ht, hk, hs⟩ := h
  cases n with
  | mk t opts subs =>
    simp only [Node.tag] at ht
    simp only [Node.options] at hk
    simp only [Node.subs] at hs
    subst ht hs
    simp only [uvVariousControls, elemOr, Option.getD, serializeElem,
      XElem.children]
    rw [loadNode_serialized _ _ _ opts (serializeList [])
      (by rw [hk, updateKeys_of_subset _ _ (fun _ hx => hx)])
      (by rw [hk]; decide)
      (by simp [serializeList])]

theorem uvLDads_rt (n : Node) (h : conformsLDads n) :
    uvLDads (some (serializeElem n)) = n := by
  obtain ⟨ht, hk, hs⟩ := h
  cases n with
  | mk t opts subs =>
    simp only [Node.tag] at ht
    simp only [Node.options] at hk
    simp only [Node.subs] at hs
    subst ht hs
    simp only [uvLDads, elemOr, Option.getD, serializeElem, XElem.children]
    rw [loadNode_serialized _ _ _ opts (serializeList [])
      (by rw [hk, updateKeys_of_subset _ _ (fun _ hx => hx)])
      (by rw [hk]; decide)
      (by simp [serializeList])]

theorem uvMemory_rt (tg : String) (n : Node) (h : conformsMemory tg n) :
    uvMemory (some (serializeElem n)) tg = n := by
  obtain ⟨ht, hk, hs⟩ := h
  cases n with
  | mk t opts subs =>
    simp only [Node.tag] at ht
    simp only [Node.options] at hk
    simp only [Node.subs] at hs
    subst ht hs
    simp only [uvMemory, elemOr, Option.getD, serializeElem, XElem.children]
    rw [loadNode_serialized _ _ _ opts (serializeList [])
      (by rw [hk, updateKeys_of_subset _ _ (fun _ hx => hx)])
      (by rw [hk]; decide)
      (by simp [serializeList])]

theorem uvFile_rt (n : Node) (h : conformsFile n) :
    uvFile (some (serializeElem n)) = n := by
  obtain ⟨ht, hk, hs⟩ := h
  cases n with
  | mk t opts subs =>
    simp only [Node.tag] at ht
    simp only [Node.options] at hk
    simp only [Node.subs] at hs
    subst ht hs
    simp only [uvFile, elemOr, Option.getD, serializeElem, XElem.children]
    rw [loadNode_serialized _ _ _ opts (serializeList [])
      (by rw [hk, updateKeys_of_subset _ _ (by simp)])
      (by rw [hk]; decide)
      (by simp [serializeList])]

theorem uvRTE_rt (n : Node) (h : conformsRTE n) :
    uvRTE (some (serializeElem n)) = n := by
  obtain ⟨ht, hk, hs⟩ := h
  cases n with
  | mk t opts subs =>
    simp only [Node.tag] at ht
    simp only [Node.options] at hk
    simp only [Node.subs] at hs
    subst ht hs
    simp only [uvRTE, elemOr, Option.getD, serializeElem, XElem.children]
    rw [loadNode_serialized _ _ _ opts (serializeList [])
      (by rw [hk, updateKeys_of_subset _ _ (by simp)])
      (by rw [hk]; decide)
      (by simp [serializeList])]

theorem uvLayer_rt (n : Node) (h : conformsLayer n) :
    uvLayer (some (serializeElem n)) = n := by
  obtain ⟨ht, hk, hs⟩ := h
  cases n with
  | mk t opts subs =>
    simp only [Node.tag] at ht
    simp only [Node.options] at hk
    simp only [Node.subs] at hs
    subst ht hs
    simp only [uvLayer, elemOr, Option.getD, serializeElem, XElem.children]
    rw [loadNode_serialized _ _ _ opts (serializeList [])
      (by rw [hk, updateKeys_of_subset _ _ (by simp)])
      (by rw [hk]; decide)
      (by simp [serializeList])]

theorem uvDebugOption_rt (n : Node) (h : conformsDebugOption n) :
    uvDebugOption (some (serializeElem n)) = n := by
  obtain ⟨ht, ho, a, hs, ha⟩ := h
  cases n with
  | mk t opts subs =>
    simp only [Node.tag] at ht
    simp only [Node.options] at ho
    simp only [Node.subs] at hs
    subst ht ho hs
    simp only [uvDebugOption, elemOr, Option.getD, serializeElem,
      XElem.children, List.map_nil, List.nil_append, serializeList]
    rw [findTag_cons_eq _ _ _ (by rw [serializeElem_tag, ha.1]),
      uvOPTHX_rt a ha]

theorem uvOnChipMemories_rt (n : Node) (h : conformsOnChipMemories n) :
    uvOnChipMemories (some (serializeElem n)) = n := by
  obtain ⟨ht, ho, htags, hsubs⟩ := h
  cases n with
  | mk t opts subs =>
    simp only [Node.tag] at ht
    simp only [Node.options] at ho
    simp only [Node.subs] at hsubs htags
    subst ht ho
    simp only [uvOnChipMemories, elemOr, Option.getD, serializeElem,
      XElem.children, List.map_nil, List.nil_append]
    rw [← htags, map_findTag_aligned subs _ rfl (by rw [htags]; decide) _
      (fun m hm => uvMemory_rt m.tag m (hsubs m hm))]

theorem uvArmAdsMisc_rt (n : Node) (h : conformsArmAdsMisc n) :
    uvArmAdsMisc (some (serializeElem n)) = n := by
  obtain ⟨ht, hk, a, hs, ha⟩ := h
  cases n with
  | mk t opts subs =>
    simp only [Node.tag] at ht
    simp only [Node.options] at hk
    simp only [Node.subs] at hs
    subst ht hs
    simp only [uvArmAdsMisc, elemOr, Option.getD, serializeElem,
      XElem.children]
    rw [loadNode_serialized _ _ _ opts (serializeList [a])
      (by rw [hk, updateKeys_of_subset _ _ (fun _ hx => hx)])
      (by rw [hk]; decide)
      (by
        intro e he
        simp only [serializeList, List.mem_singleton] at he
        subst he
        rw [serializeElem_tag, ha.1]
        exact ⟨by decide, by rw [hk]; decide⟩)]
    simp only [serializeList]
    rw [findTag_leaves_skip _ _ _ (by rw [hk]; decide),
      findTag_cons_eq _ _ _ (by rw [serializeElem_tag, ha.1]),
      uvOnChipMemories_rt a ha]

theorem uvCads_rt (n : Node) (h : conformsCads n) :
    uvCads (some (serializeElem n)) = n := by
  obtain ⟨ht, hk, a, hs, ha⟩ := h
  cases n with
  | mk t opts subs =>
    simp only [Node.tag] at ht
    simp only [Node.options] at hk
    simp only [Node.subs] at hs
    subst ht hs
    simp only [uvCads, elemOr, Option.getD, serializeElem, XElem.children]
    rw [loadNode_serialized _ _ _ opts (serializeList [a])
      (by rw [hk, updateKeys_of_subset _ _ (fun _ hx => hx)])
      (by rw [hk]; decide)
      (by
        intro e he
        simp only [serializeList, List.mem_singleton] at he
        subst he
        rw [serializeElem_tag, ha.1]
        exact ⟨by decide, by rw [hk]; decide⟩)]
    simp only [serializeList]
    rw [findTag_leaves_skip _ _ _ (by rw [hk]; decide),
      findTag_cons_eq _ _ _ (by rw [serializeElem_tag, ha.1]),
      uvVariousControls_rt a ha]

theorem uvAads_rt (n : Node) (h : conformsAads n) :
    uvAads (some (serializeElem n)) = n := by
  obtain ⟨ht, hk, a, hs, ha⟩ := h
  cases n with
  | mk t opts subs =>
    simp only [Node.tag] at ht
    simp only [Node.options] at hk
    simp only [Node.subs] at hs
    subst ht hs
    simp only [uvAads, elemOr, Option.getD, serializeElem, XElem.children]
    rw [loadNode_serialized _ _ _ opts (serializeList [a])
      (by rw [hk, updateKeys_of_subset _ _ (fun _ hx => hx)])
      (by rw [hk]; decide)
      (by
        intro e he
        simp only [serializeList, List.mem_singleton] at he
        subst he
        rw [serializeElem_tag, ha.1]
        exact ⟨by decide, by rw [hk]; decide⟩)]
    simp only [serializeList]
    rw [findTag_leaves_skip _ _ _ (by rw [hk]; decide),
      findTag_cons_eq _ _ _ (by rw [serializeElem_tag, ha.1]),
      uvVariousControls_rt a ha]

theorem uvFiles_rt (n : Node) (h : conformsFiles n) :
    uvFiles (some (serializeElem n)) = n := by
  obtain ⟨ht, ho, hfs⟩ := h
  cases n with
  | mk t opts subs =>
    simp only [Node.tag] at ht
    simp only [Node.options] at ho
    simp only [Node.subs] at hfs
    subst ht ho
    simp only [uvFiles, elemOr, Option.getD, serializeElem, XElem.children,
      List.map_nil, List.nil_append]
    rw [filter_map_rt subs "File" uvFile (fun g hg => (hfs g hg).1)
      (fun g hg => uvFile_rt g (hfs g hg))]

theorem uvGroup_rt (n : Node) (h : conformsGroup n) :
    uvGroup (some (serializeElem n)) = n := by
  obtain ⟨ht, hk, a, hs, ha⟩ := h
  cases n with
  | mk t opts subs =>
    simp only [Node.tag] at ht
    simp only [Node.options] at hk
    simp only [Node.subs] at hs
    subst ht hs
    simp only [uvGroup, elemOr, Option.getD, serializeElem, XElem.children]
    rw [loadNode_serialized _ _ _ opts (serializeList [a])
      (by rw [hk, updateKeys_of_subset _ _ (by simp)])
      (by rw [hk]; decide)
      (by
        intro e he
        simp only [serializeList, List.mem_singleton] at he
        subst he
        rw [serializeElem_tag, ha.1]
        exact ⟨by decide, by rw [hk]; decide⟩)]
    simp only [serializeList]
    rw [findTag_leaves_skip _ _ _ (by rw [hk]; decide),
      findTag_cons_eq _ _ _ (by rw [serializeElem_tag, ha.1]),
      uvFiles_rt a ha]

theorem uvGroups_rt (n : Node) (h : conformsGroups n) :
    uvGroups (some (serializeElem n)) = n := by
  obtain ⟨ht, ho, hgs⟩ := h
  cases n with
  | mk t opts subs =>
    simp only [Node.tag] at ht
    simp only [Node.options] at ho
    simp only [Node.subs] at hgs
    subst ht ho
    simp only [uvGroups, elemOr, Option.getD, serializeElem, XElem.children]
    rw [loadNode_serialized _ _ _ [] (serializeList subs) (by simp [updateKeys]) (by simp)
      (by
        intro e he
        rw [serializeList_eq_map] at he
        rcases List.mem_map.mp he with ⟨g, hg, rfl⟩
        rw [serializeElem_tag, (hgs g hg).1]
        exact ⟨by decide, by simp⟩)]
    simp only [List.map_nil, List.nil_append]
    rw [filter_map_rt subs "Group" uvGroup (fun g hg => (hgs g hg).1)
      (fun g hg => uvGroup_rt g (hgs g hg))]

theorem uvLayers_rt (n : Node) (h : conformsLayers n) :
    uvLayers (some (serializeElem n)) = n := by
  obtain ⟨ht, ho, hls⟩ := h
  cases n with
  | mk t opts subs =>
    simp only [Node.tag] at ht
    simp only [Node.options] at ho
    simp only [Node.subs] at hls
    subst ht ho
    simp only [uvLayers, elemOr, Option.getD, serializeElem, XElem.children]
    rw [loadNode_serialized _ _ _ [] (serializeList subs) (by simp [updateKeys]) (by simp)
      (by
        intro e he
        rw [serializeList_eq_map] at he
        rcases List.mem_map.mp he with ⟨g, hg, rfl⟩
        rw [serializeElem_tag, (hls g hg).1]
        exact ⟨by decide, by simp⟩)]
    simp only [List.map_nil, List.nil_append]
    rw [filter_map_rt subs "Layer" uvLayer (fun g hg => (hls g hg).1)
      (fun g hg => uvLayer_rt g (hls g hg))]

theorem uvLayerInfo_rt (n : Node) (h : conformsLayerInfo n) :
    uvLayerInfo (some (serializeElem n)) = n := by
  obtain ⟨ht, ho, a, hs, ha⟩ := h
  cases n with
  | mk t opts subs =>
    simp only [Node.tag] at ht
    simp only [Node.options] at ho
    simp only [Node.subs] at hs
    subst ht ho hs
    simp only [uvLayerInfo, elemOr, Option.getD, serializeElem,
      XElem.children]
    rw [loadNode_serialized _ _ _ [] (serializeList [a]) (by simp [updateKeys]) (by simp)
      (by
        intro e he
        simp only [serializeList, List.mem_singleton] at he
        subst he
        rw [serializeElem_tag, ha.1]
        exact ⟨by decide, by simp⟩)]
    simp only [List.map_nil, List.nil_append, serializeList]
    rw [findTag_cons_eq _ _ _ (by rw [serializeElem_tag, ha.1]),
      uvLayers_rt a ha]

theorem uvTargetCommonOption_rt (n : Node)
    (h : conformsTargetCommonOption n) :
    uvTargetCommonOption (some (serializeElem n)) = n := by
  obtain ⟨ht, hk, a, b, c, d, hs, ha, hb, hc, hd⟩ := h
  cases n with
  | mk t opts subs =>
    simp only [Node.tag] at ht
    simp only [Node.options] at hk
    simp only [Node.subs] at hs
    subst ht hs
    simp only [uvTargetCommonOption, elemOr, Option.getD, serializeElem,
      XElem.children]
    rw [loadNode_serialized _ _ _ opts (serializeList [a, b, c, d])
      (by rw [hk, updateKeys_of_subset _ _ (fun _ hx => hx)])
      (by rw [hk]; decide)
      (by
        intro e he
        rw [serializeList_eq_map] at he
        rcases List.mem_map.mp he with ⟨g, hg, rfl⟩
        rw [serializeElem_tag]
        rcases (show g = a ∨ g = b ∨ g = c ∨ g = d from by simpa using hg)
          with rfl | rfl | rfl | rfl
        · rw [ha.1]
          exact ⟨by decide, by rw [hk]; decide⟩
        · rw [hb.1]
          exact ⟨by decide, by rw [hk]; decide⟩
        · rw [hc.1]
          exact ⟨by decide, by rw [hk]; decide⟩
        · rw [hd.1]
          exact ⟨by decide, by rw [hk]; decide⟩)]
    simp only [serializeList]
    rw [findTag_leaves_skip _ _ _ (by rw [hk]; decide),
      findTag_leaves_skip _ _ _ (by rw [hk]; decide),
      findTag_leaves_skip _ _ _ (by rw [hk]; decide),
      findTag_leaves_skip _ _ _ (by rw [hk]; decide)]
    rw [findTag_cons_eq _ _ _ (by rw [serializeElem_tag, ha.1])]
    rw [findTag_cons_ne _ _ _ (by rw [serializeElem_tag, ha.1]; decide),
      findTag_cons_eq _ _ _ (by rw [serializeElem_tag, hb.1])]
    rw [findTag_cons_ne _ _ _ (by rw [serializeElem_tag, ha.1]; decide),
      findTag_cons_ne _ _ _ (by rw [serializeElem_tag, hb.1]; decide),
      findTag_cons_eq _ _ _ (by rw [serializeElem_tag, hc.1])]
    rw [findTag_cons_ne _ _ _ (by rw [serializeElem_tag, ha.1]; decide),
      findTag_cons_ne _ _ _ (by rw [serializeElem_tag, hb.1]; decide),
      findTag_cons_ne _ _ _ (by rw [serializeElem_tag, hc.1]; decide),
      findTag_cons_eq _ _ _ (by rw [serializeElem_tag, hd.1])]
    rw [uvTargetStatus_rt a ha, uvCostumeCommands_rt "U" "BeforeCompile" b
        (by decide) hb,
      uvCostumeCommands_rt "B" "BeforeMake" c (by decide) hc,
      uvCostumeCommands_rt "A" "AfterMake" d (by decide) hd]

theorem uvTargetArmAds_rt (n : Node) (h : conformsTargetArmAds n) :
    uvTargetArmAds (some (serializeElem n)) = n := by
  obtain ⟨ht, ho, a, b, c, d, hs, ha, hb, hc, hd⟩ := h
  cases n with
  | mk t opts subs =>
    simp only [Node.tag] at ht
    simp only [Node.options] at ho
    simp only [Node.subs] at hs
    subst ht ho hs
    simp only [uvTargetArmAds, elemOr, Option.getD, serializeElem,
      XElem.children]
    rw [loadNode_serialized _ _ _ [] (serializeList [a, b, c, d]) (by simp [updateKeys])
      (by simp)
      (by
        intro e he
        rw [serializeList_eq_map] at he
        rcases List.mem_map.mp he with ⟨g, hg, rfl⟩
        rw [serializeElem_tag]
        rcases (show g = a ∨ g = b ∨ g = c ∨ g = d from by simpa using hg)
          with rfl | rfl | rfl | rfl
        · rw [ha.1]
          exact ⟨by decide, by simp⟩
        · rw [hb.1]
          exact ⟨by decide, by simp⟩
        · rw [hc.1]
          exact ⟨by decide, by simp⟩
        · rw [hd.1]
          exact ⟨by decide, by simp⟩)]
    simp only [List.map_nil, List.nil_append, serializeList]
    rw [findTag_cons_eq _ _ _ (by rw [serializeElem_tag, ha.1])]
    rw [findTag_cons_ne _ _ _ (by rw [serializeElem_tag, ha.1]; decide),
      findTag_cons_eq _ _ _ (by rw [serializeElem_tag, hb.1])]
    rw [findTag_cons_ne _ _ _ (by rw [serializeElem_tag, ha.1]; decide),
      findTag_cons_ne _ _ _ (by rw [serializeElem_tag, hb.1]; decide),
      findTag_cons_eq _ _ _ (by rw [serializeElem_tag, hc.1])]
    rw [findTag_cons_ne _ _ _ (by rw [serializeElem_tag, ha.1]; decide),
      findTag_cons_ne _ _ _ (by rw [serializeElem_tag, hb.1]; decide),
      findTag_cons_ne _ _ _ (by rw [serializeElem_tag, hc.1]; decide),
      findTag_cons_eq _ _ _ (by rw [serializeElem_tag, hd.1])]
    rw [uvArmAdsMisc_rt a ha, uvCads_rt b hb, uvAads_rt c hc, uvLDads_rt d hd]

theorem uvTargetOption_rt (n : Node) (h : conformsTargetOption n) :
    uvTargetOption (some (serializeElem n)) = n := by
  obtain ⟨ht, ho, a, b, c, d, e, f, hs, ha, hb, hc, hd, he, hf⟩ := h
  cases n with
  | mk t opts subs =>
    simp only [Node.tag] at ht
    simp only [Node.options] at ho
    simp only [Node.subs] at hs
    subst ht ho hs
    simp only [uvTargetOption, elemOr, Option.getD, serializeElem,
      XElem.children]
    rw [loadNode_serialized _ _ _ [] (serializeList [a, b, c, d, e, f]) (by simp [updateKeys])
      (by simp)
      (by
        intro x hx
        rw [serializeList_eq_map] at hx
        rcases List.mem_map.mp hx with ⟨g, hg, rfl⟩
        rw [serializeElem_tag]
        rcases (show g = a ∨ g = b ∨ g = c ∨ g = d ∨ g = e ∨ g = f from by
            simpa using hg)
          with rfl | rfl | rfl | rfl | rfl | rfl
        · rw [ha.1]
          exact ⟨by decide, by simp⟩
        · rw [hb.1]
          exact ⟨by decide, by simp⟩
        · rw [hc.1]
          exact ⟨by decide, by simp⟩
        · rw [hd.1]
          exact ⟨by decide, by simp⟩
        · rw [he.1]
          exact ⟨by decide, by simp⟩
        · rw [hf.1]
          exact ⟨by decide, by simp⟩)]
    simp only [List.map_nil, List.nil_append, serializeList]
    rw [findTag_cons_eq _ _ _ (by rw [serializeElem_tag, ha.1])]
    rw [findTag_cons_ne _ _ _ (by rw [serializeElem_tag, ha.1]; decide),
      findTag_cons_eq _ _ _ (by rw [serializeElem_tag, hb.1])]
    rw [findTag_cons_ne _ _ _ (by rw [serializeElem_tag, ha.1]; decide),
      findTag_cons_ne _ _ _ (by rw [serializeElem_tag, hb.1]; decide),
      findTag_cons_eq _ _ _ (by rw [serializeElem_tag, hc.1])]
    rw [findTag_cons_ne _ _ _ (by rw [serializeElem_tag, ha.1]; decide),
      findTag_cons_ne _ _ _ (by rw [serializeElem_tag, hb.1]; decide),
      findTag_cons_ne _ _ _ (by rw [serializeElem_tag, hc.1]; decide),
      findTag_cons_eq _ _ _ (by rw [serializeElem_tag, hd.1])]
    rw [findTag_cons_ne _ _ _ (by rw [serializeElem_tag, ha.1]; decide),
      findTag_cons_ne _ _ _ (by rw [serializeElem_tag, hb.1]; decide),
      findTag_cons_ne _ _ _ (by rw [serializeElem_tag, hc.1]; decide),
      findTag_cons_ne _ _ _ (by rw [serializeElem_tag, hd.1]; decide),
      findTag_cons_eq _ _ _ (by rw [serializeElem_tag, he.1])]
    rw [findTag_cons_ne _ _ _ (by rw [serializeElem_tag, ha.1]; decide),
      findTag_cons_ne _ _ _ (by rw [serializeElem_tag, hb.1]; decide),
      findTag_cons_ne _ _ _ (by rw [serializeElem_tag, hc.1]; decide),
      findTag_cons_ne _ _ _ (by rw [serializeElem_tag, hd.1]; decide),
      findTag_cons_ne _ _ _ (by rw [serializeElem_tag, he.1]; decide),
      findTag_cons_eq _ _ _ (by rw [serializeElem_tag, hf.1])]
    rw [uvTargetCommonOption_rt a ha, uvCommonProperty_rt b hb,
      uvDllOption_rt c hc, uvDebugOption_rt d hd, uvUtilities_rt e he,
      uvTargetArmAds_rt f hf]

theorem uvTarget_rt (n : Node) (h : conformsTarget n) :
    uvTarget (some (serializeElem n)) = n := by
  obtain ⟨ht, hk, a, b, hs, ha, hb⟩ := h
  cases n with
  | mk t opts subs =>
    simp only [Node.tag] at ht
    simp only [Node.options] at hk
    simp only [Node.subs] at hs
    subst ht hs
    simp only [uvTarget, elemOr, Option.getD, serializeElem, XElem.children]
    rw [loadNode_serialized _ _ _ opts (serializeList [a, b])
      (by rw [hk, updateKeys_of_subset _ _ (fun _ hx => hx)])
      (by rw [hk]; decide)
      (by
        intro e he
        rw [serializeList_eq_map] at he
        rcases List.mem_map.mp he with ⟨g, hg, rfl⟩
        rw [serializeElem_tag]
        rcases (show g = a ∨ g = b from by simpa using hg) with rfl | rfl
        · rw [ha.1]
          exact ⟨by decide, by rw [hk]; decide⟩
        · rw [hb.1]
          exact ⟨by decide, by rw [hk]; decide⟩)]
    simp only [serializeList]
    rw [findTag_leaves_skip _ _ _ (by rw [hk]; decide),
      findTag_leaves_skip _ _ _ (by rw [hk]; decide)]
    rw [findTag_cons_eq _ _ _ (by rw [serializeElem_tag, ha.1])]
    rw [findTag_cons_ne _ _ _ (by rw [serializeElem_tag, ha.1]; decide),
      findTag_cons_eq _ _ _ (by rw [serializeElem_tag, hb.1])]
    rw [uvTargetOption_rt a ha, uvGroups_rt b hb]

theorem uvTargets_rt (n : Node) (h : conformsTargets n) :
    uvTargets (some (serializeElem n)) = n := by
  obtain ⟨ht, ho, hne, hts⟩ := h
  cases n with
  | mk t opts subs =>
    simp only [Node.tag] at ht
    simp only [Node.options] at ho
    simp only [Node.subs] at hts hne
    subst ht ho
    simp only [uvTargets, elemOr, Option.getD, serializeElem, XElem.children]
    rw [loadNode_serialized _ _ _ [] (serializeList subs) (by simp [updateKeys]) (by simp)
      (by
        intro e he
        rw [serializeList_eq_map] at he
        rcases List.mem_map.mp he with ⟨g, hg, rfl⟩
        rw [serializeElem_tag, (hts g hg).1]
        exact ⟨by decide, by simp⟩)]
    simp only [List.map_nil, List.nil_append]
    rw [filter_map_rt subs "Target" (fun o => uvTarget o)
      (fun g hg => (hts g hg).1)
      (fun g hg => uvTarget_rt g (hts g hg))]
    rw [if_neg (fun hc => hne (List.isEmpty_iff.mp hc))]

theorem uvProjectBody_rt (n : Node) (h : conformsProject n) :
    uvProjectBody (serializeElem n) = n := by
  obtain ⟨ht, hk, a, b, c, hs, ha, hb, hc⟩ := h
  cases n with
  | mk t opts subs =>
    simp only [Node.tag] at ht
    simp only [Node.options] at hk
    simp only [Node.subs] at hs
    subst ht hs
    simp only [uvProjectBody, serializeElem, XElem.children]
    rw [loadNode_serialized _ _ _ opts (serializeList [a, b, c])
      (by rw [hk, updateKeys_of_subset _ _ (fun _ hx => hx)])
      (by rw [hk]; decide)
      (by
        intro e he
        rw [serializeList_eq_map] at he
        rcases List.mem_map.mp he with ⟨g, hg, rfl⟩
        rw [serializeElem_tag]
        rcases (show g = a ∨ g = b ∨ g = c from by simpa using hg)
          with rfl | rfl | rfl
        · rw [ha.1]
          exact ⟨by decide, by rw [hk]; decide⟩
        · rw [hb.1]
          exact ⟨by decide, by rw [hk]; decide⟩
        · rw [hc.1]
          exact ⟨by decide, by rw [hk]; decide⟩)]
    simp only [serializeList]
    rw [findTag_leaves_skip _ _ _ (by rw [hk]; decide),
      findTag_leaves_skip _ _ _ (by rw [hk]; decide),
      findTag_leaves_skip _ _ _ (by rw [hk]; decide)]
    rw [findTag_cons_eq _ _ _ (by rw [serializeElem_tag, ha.1])]
    rw [findTag_cons_ne _ _ _ (by rw [serializeElem_tag, ha.1]; decide),
      findTag_cons_eq _ _ _ (by rw [serializeElem_tag, hb.1])]
    rw [findTag_cons_ne _ _ _ (by rw [serializeElem_tag, ha.1]; decide),
      findTag_cons_ne _ _ _ (by rw [serializeElem_tag, hb.1]; decide),
      findTag_cons_eq _ _ _ (by rw [serializeElem_tag, hc.1])]
    rw [uvTargets_rt a ha, uvRTE_rt b hb, uvLayerInfo_rt c hc]

/-! ## The mutation API

`Manipulator.add_target` / `add_group` (src/uvstub.py) layered over
`UVProject.Targets.add_target`, `UVTarget.Groups.add_group` and
`UVGroup.Files.add_file` (src/uvconfig.py), acting on the `Node` document.
Python `assert` failures are modelled as `fatal` outcomes; a duplicate name
is the warn-and-return path that leaves the document unchanged. -/

/-- `str.isidentifier`, restricted to ASCII (every identifier the program
itself produces is ASCII; Python's non-ASCII identifier characters are not
modelled, so mutation sequences using them are outside this model). -/
def pyIdent (s : String) : Bool :=
  match s.toList with
  | [] => false
  | c :: cs =>
    (c.isAlpha || c == '_') && cs.all (fun d => d.isAlphanum || d == '_')

/-- `os.path.isabs`, POSIX convention: the path starts with a slash. -/
def pyIsAbs (p : String) : Bool :=
  match p.data with
  | [] => false
  | c :: _ => c == '/'

/-- `os.path.basename`, POSIX convention: everything after the last slash. -/
def pyBasename (p : String) : String :=
  ⟨(p.data.reverse.takeWhile (fun c => !(c == '/'))).reverse⟩

/-- `str.endswith`. -/
def pyEndsWith (s suf : String) : Bool :=
  suf.data.reverse.isPrefixOf s.data.reverse

/-- The file-type classification of the `UVGroup.Files.File.path` setter; the
source line reads `self.options["FileType"] = "1" if val.endswith(".c") else
"2"` and carries the comment `# needs amendment`. -/
def fileTypeOf (val : String) : String :=
  if pyEndsWith val ".c" then "1" else "2"

/-- Python dict assignment `options[k] = v`: overwrite in place (keeping the
key's position) when the key exists, append otherwise. -/
def setOption (opts : List (String × String)) (k v : String) :
    List (String × String) :=
  if opts.any (fun p => p.1 == k) then
    opts.map (fun p => if p.1 = k then (k, v) else p)
  else opts ++ [(k, v)]

/-- `UVGroup.Files.File.path` setter: asserts the path is relative, then
records `FilePath`, `FileName` (base name) and `FileType` (extension code). -/
def fileSetPath (f : Node) (val : String) : Except UVErr Node :=
  if pyIsAbs val then .error .invalidPath
  else .ok (Node.mk f.tag
    (setOption (setOption (setOption f.options "FilePath" val)
      "FileName" (pyBasename val)) "FileType" (fileTypeOf val)) f.subs)

/-- `UVGroup.Files.add_file`: build a default `File()`, set its path, append
it to the file list (no duplicate check of any kind). -/
def filesAddFile (files : Node) (fn : String) : Except UVErr Node :=
  match fileSetPath (uvFile none) fn with
  | .error e => .error e
  | .ok f => .ok (Node.mk files.tag files.options (files.subs ++ [f]))

/-- `UVTarget.name` getter (`options["TargetName"]`; total here — every
constructed target carries the key). -/
def targetNameOf (t : Node) : String := (t.options.lookup "TargetName").getD ""

/-- `UVGroup.name` getter. -/
def groupNameOf (g : Node) : String := (g.options.lookup "GroupName").getD ""

/-- `UVTarget.name` setter: asserts identifier syntax. -/
def setTargetName (t : Node) (nm : String) : Except UVErr Node :=
  if pyIdent nm then
    .ok (Node.mk t.tag (setOption t.options "TargetName" nm) t.subs)
  else .error .invalidIdentifier

/-- `UVGroup.name` setter: asserts identifier syntax. -/
def setGroupName (g : Node) (nm : String) : Except UVErr Node :=
  if pyIdent nm then
    .ok (Node.mk g.tag (setOption g.options "GroupName" nm) g.subs)
  else .error .invalidIdentifier

/-- The target list of a document (`proj.targets.targets`; the `Targets` node
is the first subconfig of the project). -/
def targetsListOf : Node → List Node
  | .mk _ _ (tg :: _) => tg.subs
  | _ => []

/-- `proj.targets.target_names`: maintained by `add_target` in lockstep with
the target list, hence equal to the mapped getter. -/
def targetNamesOf (doc : Node) : List String :=
  (targetsListOf doc).map targetNameOf

/-- The group list of a target (`targ.groups.groups`; `Groups` is the second
subconfig of a target). -/
def groupsListOf : Node → List Node
  | .mk _ _ [_, .mk _ _ gs] => gs
  | _ => []

/-- The `Files` node of a group (its only subconfig). -/
def filesNodeOf : Node → Node
  | .mk _ _ [fs] => fs
  | _ => Node.mk "Files" [] []

def updateFirst (p : Node → Bool) (f : Node → Node) : List Node → List Node
  | [] => []
  | x :: xs => if p x then f x :: xs else x :: updateFirst p f xs

def withTargets : Node → List Node → Node
  | .mk pt po (.mk tt tgo _ :: rest), ts => .mk pt po (.mk tt tgo ts :: rest)
  | d, _ => d

def withGroups : Node → List Node → Node
  | .mk tt tgo [a, .mk gt go _], gs => .mk tt tgo [a, .mk gt go gs]
  | d, _ => d

def withFiles : Node → Node → Node
  | .mk gt go [_], fs => .mk gt go [fs]
  | d, _ => d

/-- Outcome of one mutation: applied, rejected as a duplicate (warn-and-return,
document unchanged), or fatal (a Python `assert` would have raised). -/
inductive MutRes : Type where
  | applied
  | rejectedDuplicate
  | fatal (e : UVErr)
deriving DecidableEq, Repr

/-- `Manipulator.add_target`: duplicate check against `target_names` first
(warn and return, document unchanged), then `UVTarget()` default construction,
the identifier-checked name setter, and `Targets.add_target` append. -/
def addTargetD (doc : Node) (nm : String) : Node × MutRes :=
  match doc with
  | .mk pt po (.mk tt tgo targets :: rest) =>
    if nm ∈ targets.map targetNameOf then (doc, .rejectedDuplicate)
    else
      match setTargetName (uvTarget none) nm with
      | .error e => (doc, .fatal e)
      | .ok t => (.mk pt po (.mk tt tgo (targets ++ [t]) :: rest), .applied)
  | _ => (doc, .fatal .missingName)

/-- `Manipulator.add_group`: ensure the target exists (creating it like
`add_target` does), then duplicate check against the target's `group_names`
(warn and return), then `UVGroup()` + name setter + `Groups.add_group`. -/
def addGroupD (doc : Node) (tnm gnm : String) : Node × MutRes :=
  let r1 := if tnm ∈ targetNamesOf doc then (doc, MutRes.applied)
    else addTargetD doc tnm
  match r1.2 with
  | .fatal e => (doc, .fatal e)
  | _ =>
    match (targetsListOf r1.1).find? (fun t => targetNameOf t == tnm) with
    | none => (r1.1, .fatal .missingName)
    | some t =>
      if gnm ∈ (groupsListOf t).map groupNameOf then (r1.1, .rejectedDuplicate)
      else
        match setGroupName (uvGroup none) gnm with
        | .error e => (r1.1, .fatal e)
        | .ok g =>
          (withTargets r1.1 (updateFirst (fun t' => targetNameOf t' == tnm)
            (fun t' => withGroups t' (groupsListOf t' ++ [g]))
            (targetsListOf r1.1)), .applied)

/-- `add_file` on an existing target/group: `Files.add_file` on that group's
file list (referencing a missing target or group is out of scope here — the
`add_src` caller would first create them and also consults the file system). -/
def addFileD (doc : Node) (tnm gnm fn : String) : Node × MutRes :=
  match (targetsListOf doc).find? (fun t => targetNameOf t == tnm) with
  | none => (doc, .fatal .missingName)
  | some t =>
    match (groupsListOf t).find? (fun g => groupNameOf g == gnm) with
    | none => (doc, .fatal .missingName)
    | some g =>
      match filesAddFile (filesNodeOf g) fn with
      | .error e => (doc, .fatal e)
      | .ok fs =>
        (withTargets doc (updateFirst (fun t' => targetNameOf t' == tnm)
          (fun t' => withGroups t'
            (updateFirst (fun g' => groupNameOf g' == gnm)
              (fun g' => withFiles g' fs) (groupsListOf t')))
          (targetsListOf doc)), .applied)

inductive Mut : Type where
  | addTarget (nm : String)
  | addGroup (tnm gnm : String)
  | addFile (tnm gnm fn : String)

def applyMut (doc : Node) (m : Mut) : Option Node :=
  let r := match m with
    | .addTarget nm => addTargetD doc nm
    | .addGroup tnm gnm => addGroupD doc tnm gnm
    | .addFile tnm gnm fn => addFileD doc tnm gnm fn
  match r.2 with
  | .fatal _ => none
  | _ => some r.1

def applyMuts (doc : Node) : List Mut → Option Node
  | [] => some doc
  | m :: ms =>
    match applyMut doc m with
    | none => none
    | some d => applyMuts d ms

/-- `UVProject(None)`: pure default construction of a whole document. -/
def initDoc : Node := uvProjectBody (XElem.mk "Project" none [])

theorem setOption_keys (opts : List (String × String)) (k v : String)
    (hk : k ∈ opts.map Prod.fst) :
    (setOption opts k v).map Prod.fst = opts.map Prod.fst := by
  have hany : opts.any (fun p => p.1 == k) = true := by
    rcases List.mem_map.mp hk with ⟨p, hp, hpe⟩
    exact List.any_eq_true.mpr ⟨p, hp, by simp [hpe]⟩
  rw [setOption, if_pos hany, List.map_map]
  apply List.map_congr_left
  intro p _
  by_cases h : p.1 = k
  · simp [h]
  · simp [h, beq_eq_false_iff_ne.mpr h]

theorem lookup_overwrite (rest : List (String × String)) (k v : String)
    (hk : k ∈ rest.map Prod.fst) :
    (rest.map (fun p => if p.1 = k then (k, v) else p)).lookup k = some v := by
  induction rest with
  | nil => simp at hk
  | cons p rest ihr =>
    obtain ⟨p1, p2⟩ := p
    simp only [List.map_cons] at hk
    by_cases h : p1 = k
    · subst h
      rw [List.map_cons, if_pos rfl]
      simp [List.lookup]
    · rw [List.map_cons, if_neg (by simpa using h)]
      have h2 : (k == p1) = false := beq_eq_false_iff_ne.mpr (fun hh => h hh.symm)
      have hk' : k ∈ rest.map Prod.fst := by
        rcases List.mem_cons.mp hk with h' | h'
        · exact absurd (by simpa using h'.symm) h
        · exact h'
      simp only [List.lookup, h2]
      exact ihr hk'

theorem setOption_lookup (opts : List (String × String)) (k v : String)
    (hk : k ∈ opts.map Prod.fst) :
    (setOption opts k v).lookup k = some v := by
  have hany : opts.any (fun p => p.1 == k) = true := by
    rcases List.mem_map.mp hk with ⟨p, hp, hpe⟩
    exact List.any_eq_true.mpr ⟨p, hp, by simp [hpe]⟩
  rw [setOption, if_pos hany]
  exact lookup_overwrite opts k v hk

theorem setTargetName_conf (t : Node) (nm : String) (t' : Node)
    (hc : conformsTarget t) (h : setTargetName t nm = .ok t') :
    conformsTarget t' ∧ targetNameOf t' = nm := by
  obtain ⟨ht, hk, a, b, hs, ha, hb⟩ := hc
  rw [setTargetName] at h
  by_cases hid : pyIdent nm
  · rw [if_pos hid] at h
    injection h with h
    subst h
    have hmem : "TargetName" ∈ t.options.map Prod.fst := by
      rw [hk]; decide
    refine ⟨⟨ht, ?_, a, b, hs, ha, hb⟩, ?_⟩
    · show (setOption t.options "TargetName" nm).map Prod.fst = _
      rw [setOption_keys _ _ _ hmem, hk]
    · show ((setOption t.options "TargetName" nm).lookup "TargetName").getD "" = nm
      rw [setOption_lookup _ _ _ hmem]
      rfl
  · rw [if_neg hid] at h
    exact absurd h (by simp)

theorem setGroupName_conf (g : Node) (nm : String) (g' : Node)
    (hc : conformsGroup g) (h : setGroupName g nm = .ok g') :
    conformsGroup g' ∧ groupNameOf g' = nm := by
  obtain ⟨ht, hk, a, hs, ha⟩ := hc
  rw [setGroupName] at h
  by_cases hid : pyIdent nm
  · rw [if_pos hid] at h
    injection h with h
    subst h
    have hmem : "GroupName" ∈ g.options.map Prod.fst := by
      rw [hk]; decide
    refine ⟨⟨ht, ?_, a, hs, ha⟩, ?_⟩
    · show (setOption g.options "GroupName" nm).map Prod.fst = _
      rw [setOption_keys _ _ _ hmem, hk]
    · show ((setOption g.options "GroupName" nm).lookup "GroupName").getD "" = nm
      rw [setOption_lookup _ _ _ hmem]
      rfl
  · rw [if_neg hid] at h
    exact absurd h (by simp)

theorem fileSetPath_conf (f : Node) (p : String) (f' : Node)
    (hc : conformsFile f) (h : fileSetPath f p = .ok f') :
    conformsFile f' := by
  obtain ⟨ht, hk, hs⟩ := hc
  rw [fileSetPath] at h
  by_cases habs : pyIsAbs p
  · rw [if_pos habs] at h
    exact absurd h (by simp)
  · rw [if_neg habs] at h
    injection h with h
    subst h
    have h1 : "FilePath" ∈ f.options.map Prod.fst := by rw [hk]; decide
    have h2 : "FileName" ∈ (setOption f.options "FilePath" p).map Prod.fst := by
      rw [setOption_keys _ _ _ h1, hk]; decide
    have h3 : "FileType" ∈ (setOption (setOption f.options "FilePath" p)
        "FileName" (pyBasename p)).map Prod.fst := by
      rw [setOption_keys _ _ _ h2, setOption_keys _ _ _ h1, hk]; decide
    exact ⟨ht, by
      show (setOption (setOption (setOption f.options "FilePath" p) "FileName"
        (pyBasename p)) "FileType" (fileTypeOf p)).map Prod.fst = uvFileKeys
      rw [setOption_keys _ _ _ h3, setOption_keys _ _ _ h2,
        setOption_keys _ _ _ h1, hk], hs⟩

theorem filesAddFile_conf (fsn : Node) (fn : String) (fs' : Node)
    (hc : conformsFiles fsn) (h : filesAddFile fsn fn = .ok fs') :
    conformsFiles fs' := by
  obtain ⟨ht, ho, hfs⟩ := hc
  rw [filesAddFile] at h
  cases hsp : fileSetPath (uvFile none) fn with
  | error e =>
    rw [hsp] at h
    exact absurd h (by simp)
  | ok f =>
    rw [hsp] at h
    injection h with h
    subst h
    refine ⟨ht, ho, ?_⟩
    intro x hx
    rcases List.mem_append.mp hx with hx | hx
    · exact hfs x hx
    · rcases List.mem_singleton.mp hx with rfl
      exact fileSetPath_conf _ _ _ (uvFile_conf none) hsp

theorem updateFirst_forall {C : Node → Prop} (p : Node → Bool)
    (f : Node → Node) (l : List Node) (hl : ∀ x ∈ l, C x)
    (hf : ∀ x, C x → C (f x)) : ∀ x ∈ updateFirst p f l, C x := by
  induction l with
  | nil => simp [updateFirst]
  | cons y ys ihr =>
    rw [updateFirst]
    split
    · intro x hx
      rcases List.mem_cons.mp hx with rfl | hx
      · exact hf y (hl y (by simp))
      · exact hl x (by simp [hx])
    · intro x hx
      rcases List.mem_cons.mp hx with rfl | hx
      · exact hl x (by simp)
      · exact ihr (fun z hz => hl z (by simp [hz])) x hx

theorem updateFirst_ne_nil (p : Node → Bool) (f : Node → Node)
    (l : List Node) (h : l ≠ []) : updateFirst p f l ≠ [] := by
  cases l with
  | nil => exact absurd rfl h
  | cons y ys =>
    rw [updateFirst]
    split <;> simp

theorem filesNodeOf_conf (g : Node) (h : conformsGroup g) :
    conformsFiles (filesNodeOf g) := by
  obtain ⟨ht, hk, a, hs, ha⟩ := h
  cases g with
  | mk gt go subs =>
    simp only [Node.subs] at hs
    subst hs
    exact ha

theorem withFiles_conf (g : Node) (fs : Node) (hg : conformsGroup g)
    (hfs : conformsFiles fs) : conformsGroup (withFiles g fs) := by
  obtain ⟨ht, hk, a, hs, ha⟩ := hg
  cases g with
  | mk gt go subs =>
    simp only [Node.subs] at hs
    simp only [Node.options] at hk
    simp only [Node.tag] at ht
    subst hs
    exact ⟨ht, hk, fs, rfl, hfs⟩

theorem withGroups_append_conf (t g : Node) (ht : conformsTarget t)
    (hg : conformsGroup g) :
    conformsTarget (withGroups t (groupsListOf t ++ [g])) := by
  obtain ⟨htt, hk, a, b, hs, ha, hb⟩ := ht
  obtain ⟨hbt, hbo, hbs⟩ := hb
  cases t with
  | mk tt topts subs =>
    simp only [Node.subs] at hs
    simp only [Node.options] at hk
    simp only [Node.tag] at htt
    subst hs
    cases b with
    | mk gt go gs =>
      simp only [Node.options] at hbo
      simp only [Node.subs] at hbs
      subst hbo
      refine ⟨htt, hk, a, _, rfl, ha, ⟨hbt, rfl, ?_⟩⟩
      intro x hx
      rcases List.mem_append.mp hx with hx | hx
      · exact hbs x hx
      · rcases List.mem_singleton.mp hx with rfl
        exact hg

theorem withGroups_update_conf (t : Node) (f : Node → Node)
    (p : Node → Bool) (ht : conformsTarget t)
    (hf : ∀ x, conformsGroup x → conformsGroup (f x)) :
    conformsTarget (withGroups t (updateFirst p f (groupsListOf t))) := by
  obtain ⟨htt, hk, a, b, hs, ha, hb⟩ := ht
  obtain ⟨hbt, hbo, hbs⟩ := hb
  cases t with
  | mk tt topts subs =>
    simp only [Node.subs] at hs
    simp only [Node.options] at hk
    simp only [Node.tag] at htt
    subst hs
    cases b with
    | mk gt go gs =>
      simp only [Node.options] at hbo
      simp only [Node.subs] at hbs
      subst hbo
      exact ⟨htt, hk, a, _, rfl, ha,
        ⟨hbt, rfl, updateFirst_forall p f gs hbs hf⟩⟩

theorem withTargets_conf (doc : Node) (ts : List Node)
    (h : conformsProject doc) (hne : ts ≠ [])
    (hall : ∀ x ∈ ts, conformsTarget x) :
    conformsProject (withTargets doc ts) := by
  obtain ⟨ht, hk, a, b, c, hs, ha, hb, hc⟩ := h
  obtain ⟨hat, hao, hane, hats⟩ := ha
  cases doc with
  | mk pt po subs =>
    simp only [Node.subs] at hs
    simp only [Node.options] at hk
    simp only [Node.tag] at ht
    subst hs
    cases a with
    | mk tt tgo targets =>
      simp only [Node.options] at hao
      subst hao
      exact ⟨ht, hk, _, b, c, rfl, ⟨hat, rfl, hne, hall⟩, hb, hc⟩

theorem targetsListOf_of_conf (doc : Node) (h : conformsProject doc) :
    (targetsListOf doc ≠ [] ∧ ∀ x ∈ targetsListOf doc, conformsTarget x) := by
  obtain ⟨ht, hk, a, b, c, hs, ha, hb, hc⟩ := h
  obtain ⟨hat, hao, hane, hats⟩ := ha
  cases doc with
  | mk pt po subs =>
    simp only [Node.subs] at hs
    subst hs
    cases a with
    | mk tt tgo targets =>
      simp only [Node.subs] at hane hats
      exact ⟨hane, hats⟩

theorem addTargetD_conf (doc : Node) (nm : String) (h : conformsProject doc) :
    conformsProject (addTargetD doc nm).1 := by
  obtain ⟨ht, hk, a, b, c, hs, ha, hb, hc⟩ := h
  obtain ⟨hat, hao, hane, hats⟩ := ha
  cases doc with
  | mk pt po subs =>
    simp only [Node.subs] at hs
    simp only [Node.options] at hk
    simp only [Node.tag] at ht
    subst hs
    cases a with
    | mk tt tgo targets =>
      simp only [Node.options] at hao
      simp only [Node.subs] at hane hats
      subst hao
      simp only [addTargetD]
      split
      · exact ⟨ht, hk, _, b, c, rfl, ⟨hat, rfl, hane, hats⟩, hb, hc⟩
      · split
        · exact ⟨ht, hk, _, b, c, rfl, ⟨hat, rfl, hane, hats⟩, hb, hc⟩
        · rename_i t hok
          refine ⟨ht, hk, _, b, c, rfl, ⟨hat, rfl, by simp [Node.subs], ?_⟩,
            hb, hc⟩
          intro x hx
          rcases List.mem_append.mp hx with hx | hx
          · exact hats x hx
          · rcases List.mem_singleton.mp hx with rfl
            exact (setTargetName_conf _ _ _ (uvTarget_conf none) hok).1

theorem addGroupD_conf (doc : Node) (tnm gnm : String)
    (h : conformsProject doc) : conformsProject (addGroupD doc tnm gnm).1 := by
  rw [addGroupD]
  have h1 : conformsProject (if tnm ∈ targetNamesOf doc
      then (doc, MutRes.applied) else addTargetD doc tnm).1 := by
    split
    · exact h
    · exact addTargetD_conf doc tnm h
  split
  · exact h
  · split
    · exact h1
    · rename_i t hfound
      split
      · exact h1
      · split
        · exact h1
        · rename_i g hok
          apply withTargets_conf _ _ h1
          · exact updateFirst_ne_nil _ _ _ (targetsListOf_of_conf _ h1).1
          · apply updateFirst_forall _ _ _ (targetsListOf_of_conf _ h1).2
            intro x hx
            exact withGroups_append_conf x g hx
              (setGroupName_conf _ _ _ (uvGroup_conf none) hok).1

theorem addFileD_conf (doc : Node) (tnm gnm fn : String)
    (h : conformsProject doc) : conformsProject (addFileD doc tnm gnm fn).1 := by
  rw [addFileD]
  split
  · exact h
  · rename_i t hfoundt
    split
    · exact h
    · rename_i g hfoundg
      split
      · exact h
      · rename_i fs hok
        have htconf : conformsTarget t :=
          (targetsListOf_of_conf _ h).2 t (List.mem_of_find?_eq_some hfoundt)
        have hgconf : conformsGroup g := by
          obtain ⟨htt, hk, a, b, hs, ha, hb⟩ := htconf
          have := hb.2.2 g ?_
          · exact this
          · have hmem := List.mem_of_find?_eq_some hfoundg
            obtain ⟨hbt, hbo, hbs⟩ := hb
            cases t with
            | mk tt topts subs =>
              simp only [Node.subs] at hs
              subst hs
              cases b with
              | mk gt go gs => exact hmem
        have hfsconf : conformsFiles fs :=
          filesAddFile_conf _ _ _ (filesNodeOf_conf g hgconf) hok
        apply withTargets_conf _ _ h
        · exact updateFirst_ne_nil _ _ _ (targetsListOf_of_conf _ h).1
        · apply updateFirst_forall _ _ _ (targetsListOf_of_conf _ h).2
          intro x hx
          exact withGroups_update_conf x _ _ hx
            (fun y hy => withFiles_conf y fs hy hfsconf)

theorem applyMut_conf (doc : Node) (m : Mut) (d' : Node)
    (h : conformsProject doc) (happ : applyMut doc m = some d') :
    conformsProject d' := by
  rw [applyMut.eq_def] at happ
  cases m with
  | addTarget nm =>
    simp only at happ
    split at happ
    · exact absurd happ (by simp)
    · injection happ with happ
      exact happ ▸ addTargetD_conf doc nm h
  | addGroup tnm gnm =>
    simp only at happ
    split at happ
    · exact absurd happ (by simp)
    · injection happ with happ
      exact happ ▸ addGroupD_conf doc tnm gnm h
  | addFile tnm gnm fn =>
    simp only at happ
    split at happ
    · exact absurd happ (by simp)
    · injection happ with happ
      exact happ ▸ addFileD_conf doc tnm gnm fn h

theorem applyMuts_conf (ms : List Mut) (doc D : Node)
    (h : conformsProject doc) (happ : applyMuts doc ms = some D) :
    conformsProject D := by
  induction ms generalizing doc with
  | nil =>
    rw [applyMuts] at happ
    injection happ with happ
    exact happ ▸ h
  | cons m ms ihr =>
    rw [applyMuts] at happ
    cases hm : applyMut doc m with
    | none => rw [hm] at happ; exact absurd happ (by simp)
    | some d =>
      rw [hm] at happ
      exact ihr d (applyMut_conf doc m d h hm) happ

/-! ## The `link` operation

`UVConfigBase.link` works on the raw element children (which serialization
never reads), so it is studied on its own node model `CNode`: tag, text,
raw children, subconfigs.  Object identity in the Python `in` test is
modelled by structural equality; the nodes of interest below are pairwise
structurally distinct whenever they are distinct objects, so the model
agrees with the source on them. -/

inductive CNode : Type where
  | mk (tag : String) (text : Option String) (children : List CNode)
      (subs : List CNode)

def CNode.tag : CNode → String
  | .mk t _ _ _ => t

def CNode.numChildren : CNode → Nat
  | .mk _ _ c _ => c.length

mutual

def CNode.beq : CNode → CNode → Bool
  | .mk t1 x1 c1 s1, .mk t2 x2 c2 s2 =>
    t1 == t2 && x1 == x2 && CNode.beqList c1 c2 && CNode.beqList s1 s2

def CNode.beqList : List CNode → List CNode → Bool
  | [], [] => true
  | a :: as, b :: bs => CNode.beq a b && CNode.beqList as bs
  | _, _ => false

end

theorem cnode_beq_iff_aux (n : Nat) :
    (∀ a b : CNode, sizeOf a ≤ n → (CNode.beq a b = true ↔ a = b)) ∧
    (∀ l m : List CNode, sizeOf l ≤ n → (CNode.beqList l m = true ↔ l = m)) := by
  induction n using Nat.strong_induction_on with
  | _ n ih =>
    constructor
    · intro a b hs
      cases a with
      | mk t1 x1 c1 s1 =>
        cases b with
        | mk t2 x2 c2 s2 =>
          have hsz := CNode.mk.sizeOf_spec t1 x1 c1 s1
          have hn : 0 < n := by omega
          rw [CNode.beq]
          simp only [Bool.and_eq_true, beq_iff_eq, CNode.mk.injEq]
          rw [(ih (n - 1) (by omega)).2 c1 c2 (by omega),
            (ih (n - 1) (by omega)).2 s1 s2 (by omega)]
          tauto
    · intro l m hs
      cases l with
      | nil =>
        cases m with
        | nil => simp [CNode.beqList]
        | cons b bs => simp [CNode.beqList]
      | cons a as =>
        cases m with
        | nil => simp [CNode.beqList]
        | cons b bs =>
          have hsz := List.cons.sizeOf_spec a as
          have hn : 0 < n := by omega
          rw [CNode.beqList]
          simp only [Bool.and_eq_true, List.cons.injEq]
          rw [(ih (n - 1) (by omega)).1 a b (by omega),
            (ih (n - 1) (by omega)).2 as bs (by omega)]

theorem cnode_beq_iff (a b : CNode) : CNode.beq a b = true ↔ a = b :=
  (cnode_beq_iff_aux (sizeOf a)).1 a b le_rfl

instance : DecidableEq CNode := fun a b =>
  decidable_of_iff (CNode.beq a b = true) (cnode_beq_iff a b)

/-- `subconfig_tags = {sub.tag: i for i, sub in enumerate(self.subconfigs)}`
followed by `self.subconfigs[subconfig_tags[tag]]`: a dict comprehension is
last-wins, so a child's replacement is the *last* subconfig carrying its
tag. -/
def findLastTag (subs : List CNode) (t : String) : Option CNode :=
  (subs.filter (fun s => s.tag == t)).getLast?

/-- Python `sube in self`: membership among the current children. -/
def containsB (l : List CNode) (u : CNode) : Bool :=
  l.any (fun v => CNode.beq v u)

/-- One level of `UVConfigBase.link(recurse=True)` once the subconfigs have
been linked: children whose tag matches a subconfig tag are replaced by the
(last) matching subconfig, then every subconfig not already among the
children is appended. -/
def linkStep (t : String) (x : Option String) (c ls : List CNode) : CNode :=
  CNode.mk t x
    (c.map (fun e => (findLastTag ls e.tag).getD e) ++
      ls.filter (fun u =>
        !containsB (c.map (fun e => (findLastTag ls e.tag).getD e)) u))
    ls

mutual

def CNode.link : CNode → CNode
  | .mk t x c s => linkStep t x c (CNode.linkList s)

def CNode.linkList : List CNode → List CNode
  | [] => []
  | a :: as => CNode.link a :: CNode.linkList as

end

theorem linkList_eq_map (s : List CNode) :
    CNode.linkList s = s.map CNode.link := by
  induction s with
  | nil => rfl
  | cons a as ihr => rw [CNode.linkList, ihr, List.map_cons]

theorem link_mk (t : String) (x : Option String) (c s : List CNode) :
    CNode.link (.mk t x c s) = linkStep t x c (CNode.linkList s) := by
  rw [CNode.link]

theorem link_tag (a : CNode) : (CNode.link a).tag = a.tag := by
  cases a with
  | mk t x c s =>
    rw [link_mk, linkStep, CNode.tag, CNode.tag]

theorem containsB_iff (l : List CNode) (u : CNode) :
    containsB l u = true ↔ u ∈ l := by
  rw [containsB, List.any_eq_true]
  constructor
  · rintro ⟨v, hv, hbeq⟩
    exact ((cnode_beq_iff v u).mp hbeq) ▸ hv
  · intro hu
    exact ⟨u, hu, (cnode_beq_iff u u).mpr rfl⟩

theorem findLastTag_mem (s : List CNode) (t : String) (u : CNode)
    (h : findLastTag s t = some u) : u ∈ s ∧ u.tag = t := by
  rw [findLastTag] at h
  have hopt : u ∈ (s.filter (fun s => s.tag == t)).getLast? :=
    Option.mem_def.mpr h
  rcases List.mem_getLast?_eq_getLast hopt with ⟨hne, hlast⟩
  have hmem : u ∈ s.filter (fun s => s.tag == t) := by
    rw [hlast]
    exact List.getLast_mem hne
  rw [List.mem_filter] at hmem
  exact ⟨hmem.1, by simpa using hmem.2⟩

theorem findLastTag_self (s : List CNode) (t : String) (u : CNode)
    (h : findLastTag s t = some u) : findLastTag s u.tag = some u := by
  rw [(findLastTag_mem s t u h).2]
  exact h

theorem findLastTag_of_nodup (s : List CNode) (u : CNode)
    (hnd : (s.map CNode.tag).Nodup) (hu : u ∈ s) :
    findLastTag s u.tag = some u := by
  induction s with
  | nil => simp at hu
  | cons a as ihr =>
    simp only [List.map_cons, List.nodup_cons] at hnd
    rcases List.mem_cons.mp hu with rfl | hu'
    · have hfil : as.filter (fun s => s.tag == u.tag) = [] := by
        apply List.filter_eq_nil_iff.mpr
        intro v hv
        simp only [beq_iff_eq]
        intro hc
        exact hnd.1 (hc ▸ List.mem_map_of_mem CNode.tag hv)
      rw [findLastTag, List.filter_cons_of_pos (by simp), hfil]
      rfl
    · have hne : ¬ a.tag = u.tag := by
        intro hc
        exact hnd.1 (hc ▸ List.mem_map_of_mem CNode.tag hu')
      rw [findLastTag, List.filter_cons_of_neg (by simpa using hne)]
      exact ihr hnd.2 hu'

theorem findLastTag_ne_none (s : List CNode) (u : CNode) (hu : u ∈ s) :
    findLastTag s u.tag ≠ none := by
  rw [findLastTag]
  intro hc
  rw [List.getLast?_eq_none_iff] at hc
  have : u ∈ s.filter (fun s => s.tag == u.tag) :=
    List.mem_filter.mpr ⟨hu, by simp⟩
  rw [hc] at this
  simp at this

def CNode.children : CNode → List CNode
  | .mk _ _ c _ => c

mutual

/-- Pairwise distinct subconfig tags, recursively: the hypothesis under which
`link` is idempotent.  (Every one of `Targets`, `Groups`, `Files` and
`Layers` with two or more entries violates it.) -/
def CNode.distinctSubs : CNode → Bool
  | .mk _ _ _ s => decide ((s.map CNode.tag).Nodup) && CNode.distinctList s

def CNode.distinctList : List CNode → Bool
  | [] => true
  | a :: as => CNode.distinctSubs a && CNode.distinctList as

end

theorem distinctList_mem (s : List CNode) (h : CNode.distinctList s = true) :
    ∀ u ∈ s, CNode.distinctSubs u = true := by
  induction s with
  | nil => simp
  | cons a as ihr =>
    rw [CNode.distinctList, Bool.and_eq_true] at h
    intro u hu
    rcases List.mem_cons.mp hu with rfl | hu'
    · exact h.1
    · exact ihr h.2 u hu'

theorem map_id_of {α : Type} (f : α → α) (l : List α)
    (h : ∀ u ∈ l, f u = u) : l.map f = l := by
  induction l with
  | nil => rfl
  | cons a as ihr =>
    rw [List.map_cons, h a (by simp), ihr (fun u hu => h u (by simp [hu]))]

theorem rho_rho (ls : List CNode) (e : CNode) :
    (findLastTag ls ((findLastTag ls e.tag).getD e).tag).getD
      ((findLastTag ls e.tag).getD e) = (findLastTag ls e.tag).getD e := by
  cases hf : findLastTag ls e.tag with
  | none => simp [hf]
  | some u =>
    simp only [Option.getD_some]
    rw [findLastTag_self ls e.tag u hf]
    rfl

theorem rho_fixed_of_mem (ls : List CNode) (u : CNode)
    (hnd : (ls.map CNode.tag).Nodup) (hu : u ∈ ls) :
    (findLastTag ls u.tag).getD u = u := by
  rw [findLastTag_of_nodup ls u hnd hu]
  rfl

theorem linkStep_children (t : String) (x : Option String) (c ls : List CNode) :
    CNode.children (linkStep t x c ls) =
      c.map (fun e => (findLastTag ls e.tag).getD e) ++
        ls.filter (fun u =>
          !containsB (c.map (fun e => (findLastTag ls e.tag).getD e)) u) := rfl

theorem mem_linkStep_children (t : String) (x : Option String)
    (c ls : List CNode) (hnd : (ls.map CNode.tag).Nodup) (u : CNode)
    (hu : u ∈ ls) : u ∈ CNode.children (linkStep t x c ls) := by
  rw [linkStep_children]
  by_cases hex : ∃ e ∈ c, e.tag = u.tag
  · rcases hex with ⟨e, he, het⟩
    apply List.mem_append_left
    apply List.mem_map.mpr
    refine ⟨e, he, ?_⟩
    rw [het, findLastTag_of_nodup ls u hnd hu]
    rfl
  · apply List.mem_append_right
    apply List.mem_filter.mpr
    refine ⟨hu, ?_⟩
    rw [Bool.not_eq_true', Bool.eq_false_iff, Ne, containsB_iff]
    intro hmem
    rcases List.mem_map.mp hmem with ⟨e, he, hre⟩
    cases hf : findLastTag ls e.tag with
    | none =>
      rw [hf] at hre
      simp only [Option.getD_none] at hre
      exact findLastTag_ne_none ls u hu (hre ▸ hf)
    | some w =>
      rw [hf] at hre
      simp only [Option.getD_some] at hre
      subst hre
      exact hex ⟨e, he, ((findLastTag_mem ls e.tag w hf).2).symm⟩

theorem rho_fixed_on_children (t : String) (x : Option String)
    (c ls : List CNode) (hnd : (ls.map CNode.tag).Nodup) (u : CNode)
    (hu : u ∈ CNode.children (linkStep t x c ls)) :
    (findLastTag ls u.tag).getD u = u := by
  rw [linkStep_children] at hu
  rcases List.mem_append.mp hu with hu | hu
  · rcases List.mem_map.mp hu with ⟨e, _, hre⟩
    rw [← hre]
    exact rho_rho ls e
  · exact rho_fixed_of_mem ls u hnd (List.mem_filter.mp hu).1

theorem linkStep_idem (t : String) (x : Option String) (c ls : List CNode)
    (hnd : (ls.map CNode.tag).Nodup) :
    linkStep t x (CNode.children (linkStep t x c ls)) ls =
      linkStep t x c ls := by
  have hAmap : (CNode.children (linkStep t x c ls)).map
      (fun e => (findLastTag ls e.tag).getD e) =
      CNode.children (linkStep t x c ls) :=
    map_id_of _ _ (fun u hu => rho_fixed_on_children t x c ls hnd u hu)
  have hfil : ls.filter (fun u =>
      !containsB (CNode.children (linkStep t x c ls)) u) = [] := by
    apply List.filter_eq_nil_iff.mpr
    intro u hu
    rw [Bool.not_eq_true', Bool.not_eq_false]
    exact containsB_iff _ _ |>.mpr (mem_linkStep_children t x c ls hnd u hu)
  conv_lhs => rw [linkStep]
  rw [hAmap, hfil, List.append_nil]
  rfl

theorem link_idem_aux (n : Nat) : ∀ a : CNode, sizeOf a ≤ n →
    CNode.distinctSubs a = true →
    CNode.link (CNode.link a) = CNode.link a := by
  induction n using Nat.strong_induction_on with
  | _ n ih =>
    intro a hs h
    cases a with
    | mk t x c s =>
      have hsz := CNode.mk.sizeOf_spec t x c s
      rw [CNode.distinctSubs, Bool.and_eq_true, decide_eq_true_eq] at h
      obtain ⟨hnd, hdl⟩ := h
      have hIH : ∀ u ∈ s, CNode.link (CNode.link u) = CNode.link u := by
        intro u hu
        have hlt := List.sizeOf_lt_of_mem hu
        exact ih (n - 1) (by omega) u (by omega) (distinctList_mem s hdl u hu)
      have hls : CNode.linkList (CNode.linkList s) = CNode.linkList s := by
        rw [linkList_eq_map, linkList_eq_map, List.map_map]
        exact List.map_congr_left (fun u hu => hIH u hu)
      have hndl : ((CNode.linkList s).map CNode.tag).Nodup := by
        rw [linkList_eq_map, List.map_map]
        rw [show ((fun a => CNode.tag a) ∘ CNode.link) = fun a => CNode.tag a
          from funext (fun u => link_tag u)]
        exact hnd
      have hexpand : linkStep t x c (CNode.linkList s) =
          CNode.mk t x (CNode.children (linkStep t x c (CNode.linkList s)))
            (CNode.linkList s) := rfl
      calc CNode.link (CNode.link (CNode.mk t x c s))
          = CNode.link (linkStep t x c (CNode.linkList s)) := by rw [link_mk]
        _ = CNode.link (CNode.mk t x
            (CNode.children (linkStep t x c (CNode.linkList s)))
            (CNode.linkList s)) := by rw [← hexpand]
        _ = linkStep t x (CNode.children (linkStep t x c (CNode.linkList s)))
            (CNode.linkList (CNode.linkList s)) := by rw [link_mk]
        _ = linkStep t x (CNode.children (linkStep t x c (CNode.linkList s)))
            (CNode.linkList s) := by rw [hls]
        _ = linkStep t x c (CNode.linkList s) :=
            linkStep_idem t x c (CNode.linkList s) hndl
        _ = CNode.link (CNode.mk t x c s) := (link_mk t x c s).symm

/-! ## The textual layer

`UVProject.__repr__` writes each option leaf as `<key>value</key>` with no
XML escaping of the value, and the document is re-read with
`xml.etree.ElementTree.parse`, whose expat parser decodes entity references
and rejects text that is not well-formed character data.  The write-then-
parse composite on a leaf value is therefore *not* the identity: `&` starts
an entity reference (`a&amp;b.c` comes back as `a&b.c`, a bare `&` that
forms no valid reference aborts the parse), `<` opens markup (depending on
the rest of the value the parse aborts on a tag mismatch or reshapes the
tree; the model conservatively maps every such document to a parse failure,
and the round-trip theorem's hypothesis excludes these values), the sequence
`]]>` and control characters other than tab and newline are rejected, and
`\r` is line-ending-normalized to `\n`.  `xmlDecodeText` models what the
parser makes of one written value; `serializeParse` is the composite on
whole documents. -/

def cTab : Char := Char.ofNat 9

def cLF : Char := Char.ofNat 10

def cCR : Char := Char.ofNat 13

/-- One digit of a numeric character reference. -/
def xmlDigitVal (base : Nat) (c : Char) : Option Nat :=
  if 48 ≤ c.toNat ∧ c.toNat ≤ 57 ∧ c.toNat - 48 < base then some (c.toNat - 48)
  else if base = 16 ∧ 97 ≤ c.toNat ∧ c.toNat ≤ 102 then some (c.toNat - 87)
  else if base = 16 ∧ 65 ≤ c.toNat ∧ c.toNat ≤ 70 then some (c.toNat - 55)
  else none

/-- `&#ddd;` / `&#xhh;`: the referenced code point, when every digit is
valid and the code point is a character XML allows in content. -/
def xmlCharRef (base : Nat) (ds : List Char) : Option Char :=
  if ds.isEmpty then none
  else
    match ds.foldl (fun acc c =>
        match acc, xmlDigitVal base c with
        | some a, some d => some (a * base + d)
        | _, _ => none) (some 0) with
    | some n =>
      if (n = 9 ∨ n = 10 ∨ n = 13 ∨ 0x20 ≤ n) ∧ Nat.isValidChar n then
        some (Char.ofNat n)
      else none
    | none => none

/-- Value of a completed entity reference `&name;`, from `name`'s
characters: the five predefined XML entities plus numeric character
references (expat rejects undeclared entity names, and no DTD declaring
custom entities is ever written). -/
def xmlEntityVal : List Char → Option Char
  | ['a', 'm', 'p'] => some '&'
  | ['l', 't'] => some '<'
  | ['g', 't'] => some '>'
  | ['q', 'u', 'o', 't'] => some (Char.ofNat 34)
  | ['a', 'p', 'o', 's'] => some (Char.ofNat 39)
  | '#' :: 'x' :: ds => xmlCharRef 16 ds
  | '#' :: ds => xmlCharRef 10 ds
  | _ => none

/-- The expat scan of raw character data, one character at a time.  The
first argument is `none` in ordinary text and `some acc` inside an entity
reference `&...`, with `acc` holding the (reversed) name read so far.  `<`
and a bare `&` that does not complete a valid entity reference abort the
parse, as do the sequence `]]>` and control characters other than tab and
newline; `\r` and `\r\n` are normalized to `\n`; everything else is returned
verbatim. -/
def xmlDecodeGo : Option (List Char) → List Char → Option (List Char)
  | none, [] => some []
  | some _, [] => none
  | none, c :: rest =>
    if c = '&' then xmlDecodeGo (some []) rest
    else if c = '<' then none
    else if c = cCR then
      match rest with
      | c2 :: rest2 =>
        if c2 = cLF then (xmlDecodeGo none rest2).map (fun l => cLF :: l)
        else (xmlDecodeGo none (c2 :: rest2)).map (fun l => cLF :: l)
      | [] => some [cLF]
    else if c = ']' then
      match rest with
      | c2 :: c3 :: _ =>
        if c2 = ']' ∧ c3 = '>' then none
        else (xmlDecodeGo none rest).map (fun l => c :: l)
      | _ => (xmlDecodeGo none rest).map (fun l => c :: l)
    else if c.toNat < 0x20 ∧ ¬ c = cTab ∧ ¬ c = cLF then none
    else (xmlDecodeGo none rest).map (fun l => c :: l)
  | some acc, c :: rest =>
    if c = ';' then
      match xmlEntityVal acc.reverse with
      | some d => (xmlDecodeGo none rest).map (fun l => d :: l)
      | none => none
    else xmlDecodeGo (some (c :: acc)) rest

/-- What `ElementTree` returns for the text of a written leaf `<k>v</k>`:
`none` when the document no longer parses, otherwise the decoded text. -/
def xmlDecodeText (s : String) : Option String :=
  (xmlDecodeGo none s.data).map (fun l => String.mk l)

/-- Characters on which writing-then-parsing is verbatim: tab, newline, and
printable ASCII other than `&` (entity start), `<` (markup start) and `]`
(potential `]]>`).  A conservative safe set: identifiers, ordinary relative
paths and every schema default value stay inside it. -/
def xmlSafeChar (c : Char) : Bool :=
  c == cTab || c == cLF ||
    (decide (0x20 ≤ c.toNat) && decide (c.toNat ≤ 0x7E) &&
      !(c == '&') && !(c == '<') && !(c == ']'))

def xmlSafeStr (s : String) : Bool := s.data.all xmlSafeChar

/-- The leaf elements `ElementTree` recovers from the printed options of one
node, or `none` when some value breaks the parse. -/
def leafParseList : List (String × String) → Option (List XElem)
  | [] => some []
  | p :: rest =>
    match xmlDecodeText p.2 with
    | none => none
    | some t =>
      (leafParseList rest).map
        (fun l => XElem.mk p.1 (if t = "" then none else some t) [] :: l)

mutual

/-- The write-then-parse composite on documents: `__repr__`'s unescaped
output re-read by `ElementTree.parse`.  Structure (tags, nesting, order)
round-trips exactly — tags are identifier constants — but every option value
passes through `xmlDecodeText`, and one bad value aborts the whole parse. -/
def serializeParse : Node → Option XElem
  | .mk t opts subs =>
    match leafParseList opts with
    | none => none
    | some leaves =>
      match serializeParseList subs with
      | none => none
      | some els => some (XElem.mk t none (leaves ++ els))

def serializeParseList : List Node → Option (List XElem)
  | [] => some []
  | n :: rest =>
    match serializeParse n with
    | none => none
    | some e =>
      match serializeParseList rest with
      | none => none
      | some es => some (e :: es)

end

/-- The full pipeline: print the document, parse it back, reconstruct a
`UVProject` from the root element. -/
def reparse (D : Node) : Option Node :=
  match serializeParse D with
  | none => none
  | some e =>
    match uvProjectE e with
    | .ok d => some d
    | .error _ => none

mutual

/-- Every option value in the document lies in the verbatim set. -/
def nodeValuesSafe : Node → Bool
  | .mk _ opts subs => opts.all (fun p => xmlSafeStr p.2) && listValuesSafe subs

def listValuesSafe : List Node → Bool
  | [] => true
  | n :: rest => nodeValuesSafe n && listValuesSafe rest

end

/-- `UVGroup.Files.File.path` getter. -/
def filePathOf (f : Node) : String := (f.options.lookup "FilePath").getD ""

/-- The `FilePath` option of the first file of the first group of the first
target of a document. -/
def firstFilePathOf (doc : Node) : String :=
  filePathOf ((filesNodeOf
    ((groupsListOf ((targetsListOf doc).headD (Node.mk "" [] []))).headD
      (Node.mk "" [] []))).subs.headD (Node.mk "" [] []))

theorem xmlDecodeGo_safe (l : List Char) (h : ∀ c ∈ l, xmlSafeChar c = true) :
    xmlDecodeGo none l = some l := by
  induction l with
  | nil => rfl
  | cons c rest ihr =>
    have hc : xmlSafeChar c = true := h c (List.mem_cons_self c rest)
    have hrest : ∀ d ∈ rest, xmlSafeChar d = true :=
      fun d hd => h d (List.mem_cons_of_mem c hd)
    simp only [xmlSafeChar, Bool.or_eq_true, Bool.and_eq_true, beq_iff_eq,
      Bool.not_eq_true', beq_eq_false_iff_ne, ne_eq, decide_eq_true_eq] at hc
    have hfacts : ¬ c = '&' ∧ ¬ c = '<' ∧ ¬ c = cCR ∧ ¬ c = ']' ∧
        ¬ (c.toNat < 0x20 ∧ ¬ c = cTab ∧ ¬ c = cLF) := by
      rcases hc with (rfl | rfl) | hm
      · exact ⟨by decide, by decide, by decide, by decide, by decide⟩
      · exact ⟨by decide, by decide, by decide, by decide, by decide⟩
      · obtain ⟨⟨⟨⟨hge, hle⟩, hamp⟩, hlt⟩, hbr⟩ := hm
        refine ⟨hamp, hlt, ?_, hbr, fun hh => absurd hh.1 (by omega)⟩
        intro hh
        subst hh
        exact absurd hge (by decide)
    obtain ⟨h1, h2, h3, h4, h5⟩ := hfacts
    cases rest with
    | nil =>
      rw [xmlDecodeGo.eq_4, if_neg h1, if_neg h2, if_neg h3, if_neg h4,
        if_neg h5, xmlDecodeGo.eq_1]
      rfl
    | cons c2 rest2 =>
      rw [xmlDecodeGo.eq_3, if_neg h1, if_neg h2, if_neg h3, if_neg h4,
        if_neg h5, ihr hrest]
      rfl

theorem xmlDecodeText_of_safe (s : String) (h : xmlSafeStr s = true) :
    xmlDecodeText s = some s := by
  rw [xmlDecodeText, xmlDecodeGo_safe s.data (by
    intro c hc
    exact List.all_eq_true.mp h c hc)]
  rfl

theorem leafParseList_of_safe (opts : List (String × String))
    (h : ∀ p ∈ opts, xmlSafeStr p.2 = true) :
    leafParseList opts = some (opts.map leafE) := by
  induction opts with
  | nil => rfl
  | cons p rest ihr =>
    rw [leafParseList,
      xmlDecodeText_of_safe p.2 (h p (List.mem_cons_self p rest)),
      ihr (fun q hq => h q (List.mem_cons_of_mem p hq))]
    rfl

theorem listValuesSafe_mem (l : List Node) (h : listValuesSafe l = true)
    (u : Node) (hu : u ∈ l) : nodeValuesSafe u = true := by
  induction l with
  | nil => cases hu
  | cons a as ihr =>
    rw [listValuesSafe, Bool.and_eq_true] at h
    rcases List.mem_cons.mp hu with rfl | hu'
    · exact h.1
    · exact ihr h.2 hu'

theorem serializeParseList_of (l : List Node)
    (h : ∀ u ∈ l, serializeParse u = some (serializeElem u)) :
    serializeParseList l = some (serializeList l) := by
  induction l with
  | nil => rfl
  | cons a as ihr =>
    rw [serializeParseList, h a (List.mem_cons_self a as),
      ihr (fun u hu => h u (List.mem_cons_of_mem a hu)), serializeList]

theorem serializeParse_of_safe_aux (n : Nat) :
    ∀ D : Node, sizeOf D ≤ n → nodeValuesSafe D = true →
      serializeParse D = some (serializeElem D) := by
  induction n using Nat.strong_induction_on with
  | _ n ih =>
    intro D hs h
    cases D with
    | mk t opts subs =>
      have hsz := Node.mk.sizeOf_spec t opts subs
      rw [nodeValuesSafe, Bool.and_eq_true] at h
      have hopts : ∀ p ∈ opts, xmlSafeStr p.2 = true := by
        intro p hp
        exact List.all_eq_true.mp h.1 p hp
      have hsubs : ∀ u ∈ subs, serializeParse u = some (serializeElem u) := by
        intro u hu
        have hu' : sizeOf u < sizeOf subs := List.sizeOf_lt_of_mem hu
        exact ih (n - 1) (by omega) u (by omega)
          (listValuesSafe_mem subs h.2 u hu)
      rw [serializeParse, leafParseList_of_safe opts hopts,
        serializeParseList_of subs hsubs, serializeElem]

/-- On a value-safe document the composite parses and is the element-level
serialization. -/
theorem serializeParse_of_safe (D : Node) (h : nodeValuesSafe D = true) :
    serializeParse D = some (serializeElem D) :=
  serializeParse_of_safe_aux (sizeOf D) D le_rfl h

/-- A conforming document reloads from its element-level serialization to
itself. -/
theorem reload_serialized_ok (D : Node) (hconf : conformsProject D) :
    uvProjectE (serializeElem D) = .ok D := by
  rw [uvProjectE, if_pos (by rw [serializeElem_tag]; exact hconf.1),
    uvProjectBody_rt D hconf]

/-! ## The claims -/

/-- C1: the claim says that after `load()` *all* K extraneous children are
removed and exactly K structural-violation warnings are recorded.  The code
removes list items while iterating over the CPython list iterator, so the
element following a removed one is skipped: with the `TargetStatus` schema and
children `Error, Foo, Bar, ExitCodeStop` (K = 2 unknown tags `Foo`, `Bar`
interleaved among valid option leaves), `Bar` survives pruning and only one
structural-violation warning is recorded.  The valid children do keep their
relative order and the synthesized defaults are appended at the end. -/
theorem c1_prune_skips_after_removal :
    ((loadNode (targetStatusDefaults.map Prod.fst)
      (targetStatusDefaults.map Prod.fst) targetStatusDefaults
      [XElem.mk "Error" (some "5") [], XElem.mk "Foo" none [],
        XElem.mk "Bar" none [], XElem.mk "ExitCodeStop" (some "0") []]
      ).children.map XElem.tag =
      ["Error", "Bar", "ExitCodeStop", "ButtonStop", "NotGenerated",
        "InvalidFlash"]) ∧
    (loadNode (targetStatusDefaults.map Prod.fst)
      (targetStatusDefaults.map Prod.fst) targetStatusDefaults
      [XElem.mk "Error" (some "5") [], XElem.mk "Foo" none [],
        XElem.mk "Bar" none [], XElem.mk "ExitCodeStop" (some "0") []]
      ).pruneWarns = 1 :=
  ⟨rfl, rfl⟩

def c2Targets : CNode :=
  .mk "Targets" none
    [.mk "Target" (some "raw1") [] [], .mk "Target" (some "raw2") [] []]
    [.mk "Target" (some "1") [] [], .mk "Target" (some "2") [] []]

/-- C2 counterexample: for a `Targets`-shaped node with two subconfigs
sharing the tag `Target` and two matching raw children, `link` is *not*
idempotent — the first pass rewrites the children to `[t2, t2, t1]` (the
last-wins tag dictionary maps both slots to the second target, then the first
target is appended as missing), and the second pass grows them again to
`[t2, t2, t2, t1]`. -/
theorem c2_counterexample :
    CNode.link (CNode.link c2Targets) ≠ CNode.link c2Targets := by
  decide

/-- C2 amended: `link(link(x)) == link(x)` holds for every node whose
subconfig lists (recursively) carry pairwise distinct tags — which covers the
whole catalog except the list-structured nodes (`Targets`, `Groups`, `Files`,
`Layers`) holding two or more same-tag subconfigs, for which the claim fails
(see the counterexample). -/
theorem c2_link_idem_of_distinct (a : CNode)
    (h : CNode.distinctSubs a = true) :
    CNode.link (CNode.link a) = CNode.link a :=
  link_idem_aux (sizeOf a) a le_rfl h

def c2DistinctNode : CNode :=
  .mk "Project" none [.mk "Targets" none [] []]
    [.mk "Targets" none [] [], .mk "RTE" none [] []]

theorem c2_witness :
    CNode.distinctSubs c2DistinctNode = true ∧
    CNode.link (CNode.link c2DistinctNode) = CNode.link c2DistinctNode :=
  ⟨by decide, c2_link_idem_of_distinct c2DistinctNode (by decide)⟩

def c3Elem : XElem := XElem.mk "DebugOption" none [XElem.mk "Garbage" none []]

/-- C3: the claim (and the spec's lifecycle section) says `load()` runs once
per node at construction, so every child tag ends up inside the valid-key
set.  `UVDebugOption.__init__` never calls `self.load()`: wrapping a
`DebugOption` element with an unknown `Garbage` child keeps that child
untouched even though `Garbage` is not in the node's valid-key set
`{"OPTHX"}`, violating the claimed invariant. -/
theorem c3_debugoption_keeps_unknown_child :
    (uvDebugOptionChildren c3Elem).map XElem.tag = ["Garbage"] ∧
    ¬ "Garbage" ∈ uvDebugOptionValidKeys ∧
    (uvDebugOption (some c3Elem)).options = [] :=
  ⟨rfl, by decide, rfl⟩

/-- The mutation sequence of the C4 counterexample: a group `G` under the
default target, then a file whose (relative, hence accepted) path contains
an XML entity reference verbatim. -/
def c4cexMuts : List Mut :=
  [Mut.addGroup "DefaultTargetName" "G",
    Mut.addFile "DefaultTargetName" "G" "a&amp;b.c"]

def c4cexDoc : Node := (applyMuts initDoc c4cexMuts).getD initDoc

set_option maxRecDepth 100000 in
/-- C4 counterexample: the claim quantifies over *every* document built
through the mutation API, but `add_file` accepts the relative path
`a&amp;b.c`, `__repr__` writes it with no escaping, and the parser decodes
the entity on re-reading: the reparsed document carries
`FilePath = "a&b.c"` where the original carries `"a&amp;b.c"`, so the
option map at the `File` node is not preserved.  (With the raw-ampersand
path `a&b.c` the rewritten document does not parse at all,
`xmlDecodeText "a&b.c" = none`.) -/
theorem c4_counterexample :
    applyMuts initDoc c4cexMuts = some c4cexDoc ∧
    firstFilePathOf c4cexDoc = "a&amp;b.c" ∧
    (reparse c4cexDoc).map firstFilePathOf = some "a&b.c" ∧
    xmlDecodeText "a&b.c" = none ∧
    ¬ ("a&b.c" = "a&amp;b.c") :=
  ⟨rfl, rfl, rfl, rfl, by decide⟩

/-- C4 amended: the round-trip holds for every document built solely through
the mutation API *whose option values contain no XML metacharacter* (no `&`,
`<` or `]`, printable ASCII plus tab and newline) — in particular whenever
every `add_file` path is such, since target and group names are forced to be
identifiers by the setters and every schema default value is already safe.
For such a document, printing and re-parsing succeeds and reconstructs a
node tree equal to the original, so the option map at every node is
preserved. -/
theorem c4_safe_roundtrip (ms : List Mut) (D : Node)
    (h : applyMuts initDoc ms = some D) (hsafe : nodeValuesSafe D = true) :
    reparse D = some D := by
  have hconf : conformsProject D :=
    applyMuts_conf ms initDoc D (uvProjectBody_conf _) h
  simp only [reparse, serializeParse_of_safe D hsafe,
    reload_serialized_ok D hconf]

def c4safeMuts : List Mut :=
  [Mut.addGroup "DefaultTargetName" "G", Mut.addFile "DefaultTargetName" "G" "main.c"]

def c4safeDoc : Node := (applyMuts initDoc c4safeMuts).getD initDoc

set_option maxRecDepth 100000 in
theorem c4_witness :
    applyMuts initDoc c4safeMuts = some c4safeDoc ∧
    nodeValuesSafe c4safeDoc = true ∧
    reparse c4safeDoc = some c4safeDoc :=
  have hsafe : nodeValuesSafe c4safeDoc = true := by decide
  ⟨rfl, hsafe, c4_safe_roundtrip c4safeMuts c4safeDoc rfl hsafe⟩

/-- C5: the claim requires three pairwise distinct type codes (`.c` ↦ C1,
`.s` ↦ C2, fallback C0).  The path setter classifies with
`"1" if val.endswith(".c") else "2"` (annotated `# needs amendment` in the
source), so `.s` files and unrecognized extensions such as `.xyz` both get
code `"2"`: there is no distinct fallback code. -/
theorem c5_filetype_no_distinct_fallback :
    fileSetPath (uvFile none) "src/main.c" =
      .ok (Node.mk "File" [("FileName", "main.c"), ("FileType", "1"),
        ("FilePath", "src/main.c")] []) ∧
    fileSetPath (uvFile none) "src/start.s" =
      .ok (Node.mk "File" [("FileName", "start.s"), ("FileType", "2"),
        ("FilePath", "src/start.s")] []) ∧
    fileSetPath (uvFile none) "src/x.xyz" =
      .ok (Node.mk "File" [("FileName", "x.xyz"), ("FileType", "2"),
        ("FilePath", "src/x.xyz")] []) ∧
    fileTypeOf "src/x.xyz" = fileTypeOf "src/start.s" :=
  ⟨rfl, rfl, rfl, rfl⟩

/-- C6: once `add_target nm` has succeeded, a second `add_target nm` is
rejected as a duplicate (`Manipulator.add_target` warns and returns before
touching the document), the document is returned unchanged, and both the
target list length and the target-name list are unaffected. -/
theorem c6_duplicate_add_target (doc : Node) (nm : String) (doc1 : Node)
    (h : addTargetD doc nm = (doc1, MutRes.applied)) :
    addTargetD doc1 nm = (doc1, MutRes.rejectedDuplicate) ∧
    targetNamesOf (addTargetD doc1 nm).1 = targetNamesOf doc1 ∧
    (targetsListOf (addTargetD doc1 nm).1).length =
      (targetsListOf doc1).length := by
  cases doc with
  | mk pt po subs =>
    cases subs with
    | nil =>
      have hred : addTargetD (Node.mk pt po []) nm =
          (Node.mk pt po [], MutRes.fatal .missingName) := rfl
      rw [hred] at h
      exact absurd (congrArg Prod.snd h) (by simp)
    | cons a rest =>
      cases a with
      | mk tt tgo targets =>
        rw [addTargetD] at h
        split at h
        · exact absurd (congrArg Prod.snd h) (by simp)
        · split at h
          · exact absurd (congrArg Prod.snd h) (by simp)
          · rename_i t hok
            have hdoc1 := congrArg Prod.fst h
            simp only at hdoc1
            subst hdoc1
            have hname : targetNameOf t = nm :=
              (setTargetName_conf _ _ _ (uvTarget_conf none) hok).2
            have hmem : nm ∈ (targets ++ [t]).map targetNameOf := by
              rw [List.map_append]
              apply List.mem_append_right
              simp [hname]
            rw [addTargetD, if_pos hmem]
            exact ⟨rfl, rfl, rfl⟩

def c6Doc : Node := Node.mk "Project" [] [Node.mk "Targets" [] []]

theorem c6_witness :
    addTargetD (addTargetD c6Doc "B").1 "B" =
      ((addTargetD c6Doc "B").1, MutRes.rejectedDuplicate) :=
  (c6_duplicate_add_target c6Doc "B" (addTargetD c6Doc "B").1 rfl).1

/-- C7: constructing a document from an element whose root tag is not
`"Project"` fails with `MalformedDocument`; the result is the same for every
child list and text, because `UVProject.__init__` asserts the root tag right
after the child-copying base constructor and before `load()` or any child
construction. -/
theorem c7_root_mismatch (t : String) (tx : Option String)
    (ch : List XElem) (h : t ≠ "Project") :
    uvProjectE (XElem.mk t tx ch) = .error .malformedDocument := by
  rw [uvProjectE, if_neg (by simpa [XElem.tag] using h)]

theorem c7_witness :
    uvProjectE (XElem.mk "Foo" none [XElem.mk "Targets" none []]) =
      .error .malformedDocument :=
  c7_root_mismatch "Foo" none [XElem.mk "Targets" none []] (by decide)

/-- C8: after `load()` the option map holds exactly the declared option keys
(the `option_keys` of the schema, merged with the default keys by
`load_keys`), in declaration order; every value is a concrete string by
construction, and a key with no corresponding child leaf in the input gets
the schema default, or `""` when it has no default. -/
theorem c8_options_schema (oksDecl vksDecl : List String)
    (defaults : List (String × String)) (children : List XElem) :
    ((loadNode oksDecl vksDecl defaults children).options.map Prod.fst =
      updateKeys oksDecl (defaults.map Prod.fst)) ∧
    (∀ k, k ∈ updateKeys oksDecl (defaults.map Prod.fst) →
      (∀ c ∈ children, c.tag ≠ k) →
      (loadNode oksDecl vksDecl defaults children).options.lookup k =
        some ((defaults.lookup k).getD "")) :=
  ⟨loadNode_keys _ _ _ _, fun k hk hm => loadNode_missing _ _ _ _ k hk hm⟩

theorem c8_witness :
    (loadNode (targetStatusDefaults.map Prod.fst)
      (targetStatusDefaults.map Prod.fst) targetStatusDefaults
      []).options.lookup "ButtonStop" =
      some ((targetStatusDefaults.lookup "ButtonStop").getD "") :=
  (c8_options_schema _ _ _ []).2 "ButtonStop" (by decide) (by simp)

def c9File : Node :=
  Node.mk "File" [("FileName", "a.c"), ("FileType", "1"), ("FilePath", "a.c")] []

/-- C9 counterexample: two `add_file` calls with the same relative path both
succeed and the group's file list then holds two files with the identical
(hence identically normalized) path — `add_file` performs no duplicate check
at all. -/
theorem c9_counterexample :
    (filesAddFile (uvFiles none) "a.c").bind
      (fun fs => filesAddFile fs "a.c") =
      .ok (Node.mk "Files" [] [c9File, c9File]) ∧
    ¬ List.Pairwise (fun a b => filePathOf a ≠ filePathOf b)
      [c9File, c9File] := by
  constructor
  · rfl
  · intro hp
    exact (List.pairwise_cons.mp hp).1 c9File (by simp) rfl

/-- C9 amended: `Files.add_file` rejects only absolute paths; otherwise it
unconditionally appends a fresh `File` whose path is the given string, with
no duplicate-path prevention of any kind (path-level deduplication lives only
in the `add_src` caller). -/
theorem c9_amended_no_dedup (fsn : Node) (p : String)
    (h : pyIsAbs p = false) :
    filesAddFile fsn p = .ok (Node.mk fsn.tag fsn.options (fsn.subs ++
      [Node.mk "File" [("FileName", pyBasename p), ("FileType", fileTypeOf p),
        ("FilePath", p)] []])) := by
  have h1 : fileSetPath (uvFile none) p =
      .ok (Node.mk "File" [("FileName", pyBasename p),
        ("FileType", fileTypeOf p), ("FilePath", p)] []) := by
    rw [fileSetPath, if_neg (by simp [h])]
    rfl
  rw [filesAddFile, h1]

theorem c9_witness :
    filesAddFile (uvFiles none) "a.c" =
      .ok (Node.mk (uvFiles none).tag (uvFiles none).options
        ((uvFiles none).subs ++ [Node.mk "File"
          [("FileName", pyBasename "a.c"), ("FileType", fileTypeOf "a.c"),
            ("FilePath", "a.c")] []])) :=
  c9_amended_no_dedup (uvFiles none) "a.c" (by decide)

/-- C10: when the wrapped `Targets` element has no `Target` child,
construction synthesizes exactly one default-valued target (named
`DefaultTargetName`), which then constitutes both the subconfig list and the
target-name list; and every constructed `Targets` node has a nonempty target
list. -/
theorem c10_default_target (children : List XElem)
    (h : ∀ c ∈ children, c.tag ≠ "Target") :
    ((uvTargets (some (XElem.mk "Targets" none children))).subs =
      [uvTarget none]) ∧
    ((uvTargets (some (XElem.mk "Targets" none children))).subs.map
      targetNameOf = ["DefaultTargetName"]) ∧
    (∀ o : Option XElem, (uvTargets o).subs ≠ []) := by
  have hfilter : ((loadNode [] ["Target"] []
      (XElem.mk "Targets" none children).children).children.filter
      (fun c => c.tag == "Target")) = [] := by
    apply List.filter_eq_nil_iff.mpr
    intro c hc
    have hmem : c ∈ children := by
      simp only [loadNode, XElem.children, List.filter_nil, List.map_nil,
        List.append_nil] at hc
      exact go_members _ _ c hc
    simp only [beq_iff_eq]
    exact h c hmem
  have h1 : (uvTargets (some (XElem.mk "Targets" none children))).subs =
      [uvTarget none] := by
    simp only [uvTargets, elemOr, Option.getD, Node.subs]
    rw [hfilter]
    rfl
  refine ⟨h1, by rw [h1]; rfl, fun o => (uvTargets_conf o).2.2.1⟩

theorem c10_witness :
    ((uvTargets (some (XElem.mk "Targets" none
      [XElem.mk "Foo" none []]))).subs = [uvTarget none]) ∧
    ((uvTargets (some (XElem.mk "Targets" none
      [XElem.mk "Foo" none []]))).subs.map targetNameOf =
      ["DefaultTargetName"]) ∧
    (∀ o : Option XElem, (uvTargets o).subs ≠ []) :=
  c10_default_target [XElem.mk "Foo" none []] (by decide)
